import Mathlib

/-!
# HabitTracker (`web.js`): the per-user data store

A shallow embedding of the data-handling code of `src/web.js`: the
`localStorage` helpers, the habit / entry / goal mutations, the monthly goal
progress computation and the import / export handlers.

Conventions of the embedding.

* A JavaScript object used as a dictionary is an insertion-ordered list of
  key/value pairs (`Obj`).  Property read is the first match, property write
  replaces in place or appends, `delete` removes the key.  `Obj.get` reads
  own properties; where the code reads or writes a key that may name a member
  of `Object.prototype` (a habit id from an imported file can), the inherited
  member is modelled too (`objectPrototypeKeys`, `Obj.truthyAt`,
  `Obj.assignFlag`).
* The document has the shape written at the top of `web.js`
  (`habits`, `entries`, `goals`); completion flags are booleans.
* `state.username` and `state.data` start as `null`; they are `Option`s.
* Targets are integers (`Int`); `parseInt` and the JSON reader round to a
  double as the code does.  The range limits of `Date` are outside the model.  The quotient and the product
  of the progress computation are rounded to IEEE-754 doubles (`fl64`), and
  `Math.round` is `⌊x + 1/2⌋` on the value of the double.
* `uid`, `confirm` answers and the DOM input values are parameters of the
  functions that use them, and so are `JSON.stringify` / `JSON.parse` in the
  storage helpers; `jsonStringify` / `jsonParse` give the JSON text of a
  document and its reading.  Rendering and the confetti effect do not touch
  the document and are left out.
-/

namespace HabitTracker

/-! ## JavaScript objects -/

/-- A JavaScript object used as a dictionary with string keys. -/
abbrev Obj (α : Type) := List (String × α)

/-- Property read `o[k]`: `none` stands for `undefined`. -/
def Obj.get {α : Type} : Obj α → String → Option α
  | [], _ => none
  | (k', v) :: t, k => if k' = k then some v else Obj.get t k

/-- The list `Object.keys(o)`. -/
def Obj.keys {α : Type} (o : Obj α) : List String := o.map Prod.fst

/-- The list `Object.values(o)`. -/
def Obj.values {α : Type} (o : Obj α) : List α := o.map Prod.snd

/-- Property write `o[k] = v`: an existing key keeps its position, a new key
goes last. -/
def Obj.set {α : Type} : Obj α → String → α → Obj α
  | [], k, v => [(k, v)]
  | (k', v') :: t, k, v => if k' = k then (k, v) :: t else (k', v') :: Obj.set t k v

/-- The statement `delete o[k]`. -/
def Obj.delete {α : Type} (o : Obj α) (k : String) : Obj α :=
  o.filter (fun p => p.1 != k)

/-- Object spread `{ ...a, ...b }`: starting from a copy of `a`, every own key
of `b`, in order, is written with the value read from `b`. -/
def Obj.spread {α : Type} (a b : Obj α) : Obj α :=
  (Obj.keys b).foldl
    (fun acc k =>
      match Obj.get b k with
      | some v => Obj.set acc k v
      | none => acc)
    a

/-! ## Data model (`web.js`, lines 4-9) -/

/-- A habit `{id, name, color}`. -/
structure Habit where
  id : String
  name : String
  color : String
  deriving DecidableEq

/-- A day entry `{ notes, completed: { habitId: bool } }`. -/
structure Entry where
  notes : String
  completed : Obj Bool
  deriving DecidableEq

/-- A monthly goal `{id, title, target}`. -/
structure Goal where
  id : String
  title : String
  target : Int
  deriving DecidableEq

/-- The per-user document `{ habits, entries, goals }`. -/
structure Document where
  habits : Obj Habit
  entries : Obj Entry
  goals : Obj (List Goal)
  deriving DecidableEq

/-- The literal `{ habits:{}, entries:{}, goals:{} }`. -/
def emptyDocument : Document := { habits := [], entries := [], goals := [] }

/-- The literal `{ notes:'', completed:{} }`. -/
def emptyEntry : Entry := { notes := "", completed := [] }

/-- The module-level `state` (lines 43-49). -/
structure State where
  username : Option String
  data : Option Document
  viewYear : Int
  viewMonth : Nat
  selectedDate : String
  deriving DecidableEq

/-- The browser's `localStorage`: string keys, string values. -/
abbrev Storage := Obj String

/-- The state together with the persistent storage it writes through to. -/
structure World where
  state : State
  storage : Storage
  deriving DecidableEq

/-! ## localStorage helpers (lines 52-66) -/

/-- Source `storageKey(user)`. -/
def storageKey (user : String) : String := "healthtracker:" ++ user

/-- Source `loadData(user)`; `parse` is `JSON.parse`, `none` meaning that it
throws.  A missing or empty raw value and a parse failure all give the empty
document. -/
def loadData (parse : String → Option Document) (storage : Storage) (user : String) :
    Document :=
  match Obj.get storage (storageKey user) with
  | none => emptyDocument
  | some raw =>
    if raw = "" then emptyDocument
    else
      match parse raw with
      | some d => d
      | none => emptyDocument

/-- Source `saveData()`; `stringify` is `JSON.stringify`.  Nothing is written
when `state.username` or `state.data` is falsy (`null` or the empty string). -/
def saveData (stringify : Document → String) (s : State) (storage : Storage) : Storage :=
  match s.username, s.data with
  | some u, some d =>
    if u = "" then storage else Obj.set storage (storageKey u) (stringify d)
  | _, _ => storage

/-! ## Habits and entries -/

/-- The callback of the `forEach` on lines 181-183, on one entry: the key is
deleted from `completed` when its value is truthy. -/
def removeHabitFromEntry (hid : String) (e : Entry) : Entry :=
  if Obj.get e.completed hid = some true then
    { e with completed := Obj.delete e.completed hid }
  else e

/-- The cascade of the remove-habit handler on one document (lines 179-183):
the habit is deleted, then the callback runs on every entry. -/
def removeHabit (d : Document) (hid : String) : Document :=
  { d with
    habits := Obj.delete d.habits hid
    entries := d.entries.map (fun p => (p.1, removeHabitFromEntry hid p.2)) }

/-- The remove-habit click handler (lines 177-186); `confirmed` is the answer
to `confirm(...)`. -/
def removeHabitClick (stringify : Document → String) (confirmed : Bool) (hid : String)
    (w : World) : World :=
  if confirmed then
    match w.state.data with
    | none => w
    | some d =>
      let s : State := { w.state with data := some (removeHabit d hid) }
      { state := s, storage := saveData stringify s w.storage }
  else w

/-- The property names every plain object inherits from `Object.prototype`.
Each of them reads as a truthy value (a function, or the prototype itself for
`__proto__`) on an object that has no own property of that name. -/
def objectPrototypeKeys : List String :=
  ["constructor", "__defineGetter__", "__defineSetter__", "hasOwnProperty",
    "__lookupGetter__", "__lookupSetter__", "isPrototypeOf", "propertyIsEnumerable",
    "toString", "valueOf", "__proto__", "toLocaleString"]

/-- The truthiness of `o[k]` on a plain object of flags: the own value when
there is one, else whether `k` names an inherited member. -/
def Obj.truthyAt (o : Obj Bool) (k : String) : Bool :=
  match Obj.get o k with
  | some b => b
  | none => decide (k ∈ objectPrototypeKeys)

/-- The assignment `o[k] = flag` of a boolean on a plain object: an own or an
ordinary key is written; `__proto__` without an own property goes to the
inherited setter, which ignores a boolean. -/
def Obj.assignFlag (o : Obj Bool) (k : String) (flag : Bool) : Obj Bool :=
  match Obj.get o k with
  | some _ => Obj.set o k flag
  | none => if k = "__proto__" then o else Obj.set o k flag

/-- The document update of `toggleHabitForDay(hid, iso)` (lines 228-231).
When `entries` has no own entry for `iso` and `iso` names an inherited member,
`!state.data.entries[iso]` is false and `e` is that member, not an entry: the
flag is written on it and the document stays as it was. -/
def toggleHabitForDayDoc (d : Document) (hid iso : String) : Document :=
  match Obj.get d.entries iso with
  | some e =>
    let flag := !(Obj.truthyAt e.completed hid)
    { d with
      entries := Obj.set d.entries iso
        { e with completed := Obj.assignFlag e.completed hid flag } }
  | none =>
    if iso ∈ objectPrototypeKeys then d
    else
      let e := emptyEntry
      let flag := !(Obj.truthyAt e.completed hid)
      { d with
        entries := Obj.set (Obj.set d.entries iso e) iso
          { e with completed := Obj.assignFlag e.completed hid flag } }

/-- Source `toggleHabitForDay(hid, iso)`: update, then `saveData()`. -/
def toggleHabitForDay (stringify : Document → String) (hid iso : String) (w : World) :
    World :=
  match w.state.data with
  | none => w
  | some d =>
    let s : State := { w.state with data := some (toggleHabitForDayDoc d hid iso) }
    { state := s, storage := saveData stringify s w.storage }

/-- The boolean for `(hid, iso)` with a missing entry or a missing
`completed[hid]` counting as `false`: the stored flag, if any. -/
def completedFlag (d : Document) (hid iso : String) : Bool :=
  match Obj.get d.entries iso with
  | none => false
  | some e => Obj.get e.completed hid == some true

/-- The stored value `entries[iso].completed[hid]`; `none` when the entry or
the key is missing. -/
def storedFlag (d : Document) (hid iso : String) : Option Bool :=
  match Obj.get d.entries iso with
  | none => none
  | some e => Obj.get e.completed hid

/-! ## Month keys and calendar days -/

/-- The method call `s.padStart(2, '0')`. -/
def padStart2 (s : String) : String :=
  String.mk (List.replicate (2 - s.length) '0') ++ s

/-- The month key built on lines 249, 293 and 337:
the year, a dash, and `String(month+1).padStart(2,'0')`; `month` is 0-indexed. -/
def monthKey (year : Int) (month : Nat) : String :=
  toString year ++ "-" ++ padStart2 (toString (month + 1))

/-- The day key built on line 297. -/
def isoDate (year : Int) (month day : Nat) : String :=
  monthKey year month ++ "-" ++ padStart2 (toString day)

/-- Gregorian leap years. -/
def isLeapYear (y : Int) : Bool :=
  (y % 4 == 0 && y % 100 != 0) || y % 400 == 0

/-- The expression `new Date(year, month+1, 0).getDate()`: the number of days
of month `month` (0-indexed).  The `Date` constructor reads a year from 0 to
99 as 1900 + year and carries a month index of 12 or more into the following
years. -/
def daysInMonth (year : Int) (month : Nat) : Nat :=
  let base : Int := if 0 ≤ year ∧ year ≤ 99 then 1900 + year else year
  let y : Int := base + ((month / 12 : Nat) : Int)
  match month % 12 with
  | 1 => if isLeapYear y then 29 else 28
  | 3 => 30
  | 5 => 30
  | 8 => 30
  | 10 => 30
  | _ => 31

/-! ## Goals (lines 290-343) -/

/-- The test on line 299: the day has an entry and
`Object.values(e.completed).some(v => v)`. -/
def isCompletionDay (d : Document) (iso : String) : Bool :=
  match Obj.get d.entries iso with
  | none => false
  | some e => (Obj.values e.completed).any id

/-- The values taken by the loop variable `d` on line 296: `1, ..., daysInMonth`. -/
def monthDays (year : Int) (month : Nat) : List Nat :=
  (List.range (daysInMonth year month)).map (· + 1)

/-- The loop of lines 295-300: `completions` after the last iteration. -/
def countCompletions (d : Document) (year : Int) (month : Nat) : Nat :=
  (monthDays year month).foldl
    (fun completions day =>
      if isCompletionDay d (isoDate year month day) then completions + 1 else completions)
    0

/-! ## Double-precision arithmetic

JavaScript numbers are IEEE-754 doubles.  Integers below `2 ^ 53` in magnitude
are exact; the quotient and the product of the progress computation are not
always, so both are rounded here as the machine rounds them. -/

/-- Rounding to the nearest integer, a half going to the even neighbour. -/
def roundHalfEven (x : ℚ) : Int :=
  let f := ⌊x⌋
  if x - f < 1 / 2 then f
  else if 1 / 2 < x - f then f + 1
  else if f % 2 = 0 then f else f + 1

/-- The binary exponent of the doubles around `x`: that of `x` itself, and no
less than the exponent `-1022` of the smallest normal double. -/
def binadeExp (x : ℚ) : Int := max (Int.log 2 |x|) (-1022)

/-- The spacing of the doubles around `x` (53 significant bits). -/
def ulp (x : ℚ) : ℚ := 2 ^ (binadeExp x - 52)

/-- The double nearest to `x`, ties to the even significand: the value of an
arithmetic operation whose exact result is `x`.  Overflow to `Infinity`, from
`2 ^ 1024` on, is not modelled; no value computed here comes near it. -/
def fl64 (x : ℚ) : ℚ := roundHalfEven (x / ulp x) * ulp x

/-- The function `Math.round` on the value of a double: the nearest integer, a
half going up. -/
def jsRound (x : ℚ) : Int := ⌊x + 1 / 2⌋

/-- The divisor `goal.target || 1`: zero is the only falsy integer. -/
def targetOrOne (target : Int) : Int := if target = 0 then 1 else target

/-- Source `computeGoalProgressPct(goal, year, month)`: the returned `pct`.
The division and the multiplication by 100 are each rounded to a double. -/
def computeGoalProgressPct (d : Document) (goal : Goal) (year : Int) (month : Nat) : Int :=
  let completions := countCompletions d year month
  min 100 (jsRound (fl64 (fl64 ((completions : ℚ) / (targetOrOne goal.target : ℚ)) * 100)))

/-- The test `pct >= 100` on line 303 of `computeGoalProgressPct`: whether the
call goes on to `triggerCelebration()`. -/
def signalsTargetReached (d : Document) (goal : Goal) (year : Int) (month : Nat) : Bool :=
  decide (100 ≤ computeGoalProgressPct d goal year month)

/-- The white space that `String.prototype.trim` and `parseInt` strip. -/
def isJsWhitespace (c : Char) : Bool :=
  let n := c.toNat
  n == 9 || n == 10 || n == 11 || n == 12 || n == 13 || n == 32 || n == 0xA0 ||
    n == 0x1680 || (0x2000 ≤ n && n ≤ 0x200A) || n == 0x2028 || n == 0x2029 ||
    n == 0x202F || n == 0x205F || n == 0x3000 || n == 0xFEFF

/-- The method call `s.trim()`. -/
def jsTrim (s : String) : String :=
  String.mk ((s.toList.dropWhile isJsWhitespace).reverse.dropWhile isJsWhitespace).reverse

/-- The digits that `parseInt(s, 10)` reads: leading white space is skipped,
then an optional sign, then the longest run of decimal digits.  The result is
the sign (`true` for a minus) and the exact value of the digits; `none` when
there is no digit. -/
def parseIntDigits (s : String) : Option (Bool × Nat) :=
  let cs := s.toList.dropWhile isJsWhitespace
  let signed : Bool × List Char :=
    match cs with
    | '-' :: r => (true, r)
    | '+' :: r => (false, r)
    | r => (false, r)
  let digits := signed.2.takeWhile Char.isDigit
  if digits = [] then none
  else some (signed.1, digits.foldl (fun acc c => 10 * acc + (c.toNat - 48)) 0)

/-- The Number value of a natural number: the nearest double, which is again
a natural number, or `none` when the nearest double would be `2 ^ 1024`, that
is `Infinity`. -/
def natToDouble (n : Nat) : Option Nat :=
  if (2 : ℚ) ^ 1024 ≤ fl64 (n : ℚ) then none else some ⌊fl64 (n : ℚ)⌋.toNat

/-- The result of `parseInt`: `NaN`, an infinity, or an integer that is a
double. -/
inductive ParsedInt where
  | nan
  | infinite (negative : Bool)
  | finite (value : Int)
  deriving DecidableEq

/-- The call `parseInt(s, 10)`: the digits read, rounded to a double, with the
sign applied. -/
def parseInt10 (s : String) : ParsedInt :=
  match parseIntDigits s with
  | none => ParsedInt.nan
  | some (negative, n) =>
    match natToDouble n with
    | none => ParsedInt.infinite negative
    | some m => ParsedInt.finite (if negative then -(m : Int) else (m : Int))

/-- What the add-goal handler leaves behind: `rejected` is the early return of
line 336 with the message passed to `flash`; `appended` is the world after the
push and the save; `appendedInfinite` stands for a push with target `Infinity`
or `-Infinity`, a value the integer targets of `Document` do not hold; `threw`
is the exception of line 338 when no document is loaded. -/
inductive AddGoalOutcome where
  | rejected (world : World) (flash : String)
  | appended (world : World)
  | appendedInfinite (negative : Bool)
  | threw (world : World)
  deriving DecidableEq

/-- The add-goal click handler (lines 333-343).  `titleInput` and
`targetInput` are the values of the two input fields, `newId` the result of
`uid('g')`.  The test `!target` is true for `NaN` and for zero. -/
def addGoalClick (stringify : Document → String) (newId titleInput targetInput : String)
    (w : World) : AddGoalOutcome :=
  let title := jsTrim titleInput
  let target := parseInt10 targetInput
  if title = "" ∨ target = ParsedInt.nan ∨ target = ParsedInt.finite 0 then
    AddGoalOutcome.rejected w "Provide goal title and numeric target"
  else
    match w.state.data with
    | none => AddGoalOutcome.threw w
    | some d =>
      match target with
      | ParsedInt.nan => AddGoalOutcome.rejected w "Provide goal title and numeric target"
      | ParsedInt.infinite negative => AddGoalOutcome.appendedInfinite negative
      | ParsedInt.finite t =>
        let key := monthKey w.state.viewYear w.state.viewMonth
        let goals1 := Obj.set d.goals key ((Obj.get d.goals key).getD [])
        let g : Goal := { id := newId, title := title, target := t }
        let goals2 := Obj.set goals1 key ((Obj.get goals1 key).getD [] ++ [g])
        let s : State := { w.state with data := some { d with goals := goals2 } }
        AddGoalOutcome.appended { state := s, storage := saveData stringify s w.storage }

/-! ## Export and import (lines 346-391) -/

/-- A parsed import file: either property may be missing. -/
structure Payload where
  username : Option String
  data : Option Document
  deriving DecidableEq

/-- The object built on line 348 of the export handler; `none` when the
handler returns early because no username is loaded. -/
def exportPayload (s : State) : Option Payload :=
  match s.username with
  | none => none
  | some u => if u = "" then none else some { username := some u, data := s.data }

/-- The check on line 368: `!payload.username || !payload.data`. -/
def payloadInvalid (p : Payload) : Bool :=
  (match p.username with
    | none => true
    | some u => u == "") ||
  (match p.data with
    | none => true
    | some _ => false)

/-- What the import handler leaves behind; `askedMode` records whether the
`confirm` dialog of line 373 was shown. -/
structure ImportOutcome where
  world : World
  flash : String
  askedMode : Bool
  deriving DecidableEq

/-- The import handler from the parsed payload on (lines 368-387).
`mergeChosen` is the answer to the `confirm` dialog: OK merges, Cancel
replaces.  Merging into a `null` document throws and is caught. -/
def importPayload (stringify : Document → String) (p : Payload) (mergeChosen : Bool)
    (w : World) : ImportOutcome :=
  if payloadInvalid p then
    { world := w, flash := "Invalid file format", askedMode := false }
  else
    match p.data with
    | none => { world := w, flash := "Invalid file format", askedMode := false }
    | some incoming =>
      if mergeChosen then
        match w.state.data with
        | none => { world := w, flash := "Import failed", askedMode := true }
        | some d =>
          let merged : Document :=
            { habits := Obj.spread d.habits incoming.habits
              entries := Obj.spread d.entries incoming.entries
              goals := Obj.spread d.goals incoming.goals }
          let s : State := { w.state with data := some merged }
          { world := { state := s, storage := saveData stringify s w.storage }
            flash := "Import complete", askedMode := true }
      else
        let s : State := { w.state with data := some incoming }
        { world := { state := s, storage := saveData stringify s w.storage }
          flash := "Import complete", askedMode := true }

/-! ## The progress formula as the specification words it -/

/-- The specification's `completions`: the number of calendar days of the
month whose entry has at least one habit with `completed == true`. -/
def specCompletions (d : Document) (year : Int) (month : Nat) : Nat :=
  (monthDays year month).countP (fun day => isCompletionDay d (isoDate year month day))

/-- The specification's `effectiveTarget`: the target if it is positive,
else 1. -/
def specEffectiveTarget (target : Int) : Int := if 0 < target then target else 1

/-- The specification's `percent`:
`min(100, round(completions / effectiveTarget * 100))`, in the arithmetic of
the implementation. -/
def specPercent (d : Document) (target : Int) (year : Int) (month : Nat) : Int :=
  min 100
    (jsRound (fl64
      (fl64 ((specCompletions d year month : ℚ) / (specEffectiveTarget target : ℚ)) * 100)))

/-- Whether the month has a completion day at all. -/
def hasCompletionDay (d : Document) (year : Int) (month : Nat) : Bool :=
  (monthDays year month).any (fun day => isCompletionDay d (isoDate year month day))

/-! ## JSON text of a document -/

/-- The double quote. -/
def dquote : Char := Char.ofNat 34

/-- The backslash. -/
def backslash : Char := Char.ofNat 92

/-- The lower-case hexadecimal digit of a number below 16. -/
def hexDigit (n : Nat) : Char :=
  if n < 10 then Char.ofNat (48 + n) else Char.ofNat (87 + n)

/-- The value of a hexadecimal digit, in either case. -/
def hexValue (c : Char) : Option Nat :=
  let n := c.toNat
  if 48 ≤ n ∧ n ≤ 57 then some (n - 48)
  else if 97 ≤ n ∧ n ≤ 102 then some (n - 87)
  else if 65 ≤ n ∧ n ≤ 70 then some (n - 55)
  else none

/-- The text `JSON.stringify` writes for one character of a string: the quote
and the backslash are escaped, the control characters get their short escape
or `\u00XX`, every other character is written as it is. -/
def jsonEscapeChar (c : Char) : List Char :=
  if c = dquote then [backslash, dquote]
  else if c = backslash then [backslash, backslash]
  else if c.toNat = 8 then [backslash, 'b']
  else if c.toNat = 9 then [backslash, 't']
  else if c.toNat = 10 then [backslash, 'n']
  else if c.toNat = 12 then [backslash, 'f']
  else if c.toNat = 13 then [backslash, 'r']
  else if c.toNat < 32 then
    [backslash, 'u', '0', '0', hexDigit (c.toNat / 16), hexDigit (c.toNat % 16)]
  else [c]

/-- The JSON text of a string. -/
def jsonQuote (s : String) : List Char :=
  dquote :: (s.toList.flatMap jsonEscapeChar ++ [dquote])

/-- The character an escape sequence stands for, and the input after it;
`input` is what follows the backslash. -/
def parseEscape (input : List Char) : Option (Char × List Char) :=
  match input with
  | [] => none
  | e :: rest =>
    if e = dquote then some (dquote, rest)
    else if e = backslash then some (backslash, rest)
    else if e = '/' then some ('/', rest)
    else if e = 'b' then some (Char.ofNat 8, rest)
    else if e = 't' then some (Char.ofNat 9, rest)
    else if e = 'n' then some (Char.ofNat 10, rest)
    else if e = 'f' then some (Char.ofNat 12, rest)
    else if e = 'r' then some (Char.ofNat 13, rest)
    else if e = 'u' then
      match rest with
      | a :: b :: c :: d :: rest' =>
        match hexValue a, hexValue b, hexValue c, hexValue d with
        | some x, some y, some z, some w =>
          some (Char.ofNat (((x * 16 + y) * 16 + z) * 16 + w), rest')
        | _, _, _, _ => none
      | _ => none
    else none

/-- The characters of a JSON string up to its closing quote, and the input
after the quote; `input` is what follows the opening quote.  `fuel` bounds the
number of characters read. -/
def parseStringBody : Nat → List Char → Option (List Char × List Char)
  | 0, _ => none
  | _ + 1, [] => none
  | fuel + 1, c :: rest =>
    if c = dquote then some ([], rest)
    else if c = backslash then
      match parseEscape rest with
      | none => none
      | some (x, rest') =>
        match parseStringBody fuel rest' with
        | none => none
        | some (cs, out) => some (x :: cs, out)
    else if c.toNat < 32 then none
    else
      match parseStringBody fuel rest with
      | none => none
      | some (cs, out) => some (c :: cs, out)

/-- A JSON string at the head of the input. -/
def parseString (input : List Char) : Option (String × List Char) :=
  match input with
  | [] => none
  | c :: rest =>
    if c = dquote then
      match parseStringBody (rest.length + 1) rest with
      | none => none
      | some (cs, out) => some (String.mk cs, out)
    else none

/-- The opening brace. -/
def lbrace : Char := Char.ofNat 123

/-- The closing brace. -/
def rbrace : Char := Char.ofNat 125

/-- A parser: the value read at the head of the input and the input left. -/
abbrev Parser (α : Type) := List Char → Option (α × List Char)

/-- The input left after the given text, when the input starts with it. -/
def expect (lit : List Char) (input : List Char) : Option (List Char) :=
  if lit.isPrefixOf input then some (input.drop lit.length) else none

/-- A member name with its colon. -/
def keyText (k : String) : List Char := jsonQuote k ++ [':']

/-- The decimal digit of a number below 10. -/
def digitChar (n : Nat) : Char := Char.ofNat (48 + n)

/-- The decimal text of a natural number. -/
def natText (n : Nat) : List Char :=
  if n = 0 then ['0'] else (Nat.digits 10 n).reverse.map digitChar

/-- The text `JSON.stringify` writes for an integer below `10 ^ 21` in
magnitude. -/
def intText (t : Int) : List Char :=
  if t < 0 then '-' :: natText t.natAbs else natText t.natAbs

/-- The text for a boolean. -/
def boolText (b : Bool) : List Char := if b then "true".toList else "false".toList

/-- The members of an object, separated by commas. -/
def printMembers {α : Type} (pr : α → List Char) : List (String × α) → List Char
  | [] => []
  | [kv] => keyText kv.1 ++ pr kv.2
  | kv :: m :: t => keyText kv.1 ++ pr kv.2 ++ [','] ++ printMembers pr (m :: t)

/-- The text for an object used as a dictionary. -/
def printObject {α : Type} (pr : α → List Char) (o : Obj α) : List Char :=
  [lbrace] ++ printMembers pr o ++ [rbrace]

/-- The elements of an array, separated by commas. -/
def printElems {α : Type} (pr : α → List Char) : List α → List Char
  | [] => []
  | [v] => pr v
  | v :: m :: t => pr v ++ [','] ++ printElems pr (m :: t)

/-- The text for an array. -/
def printArray {α : Type} (pr : α → List Char) (l : List α) : List Char :=
  ['['] ++ printElems pr l ++ [']']

/-- The text for a habit, members in the order of line 326. -/
def printHabit (h : Habit) : List Char :=
  [lbrace] ++ keyText "id" ++ jsonQuote h.id ++ [','] ++ keyText "name" ++ jsonQuote h.name ++
    [','] ++ keyText "color" ++ jsonQuote h.color ++ [rbrace]

/-- The text for an entry, members in the order of line 228. -/
def printEntry (e : Entry) : List Char :=
  [lbrace] ++ keyText "notes" ++ jsonQuote e.notes ++ [','] ++ keyText "completed" ++
    printObject boolText e.completed ++ [rbrace]

/-- The text for a goal, members in the order of line 339. -/
def printGoal (g : Goal) : List Char :=
  [lbrace] ++ keyText "id" ++ jsonQuote g.id ++ [','] ++ keyText "title" ++ jsonQuote g.title ++
    [','] ++ keyText "target" ++ intText g.target ++ [rbrace]

/-- The text for a document, members in the order of line 56. -/
def printDocument (d : Document) : List Char :=
  [lbrace] ++ keyText "habits" ++ printObject printHabit d.habits ++ [','] ++
    keyText "entries" ++ printObject printEntry d.entries ++ [','] ++
    keyText "goals" ++ printObject (printArray printGoal) d.goals ++ [rbrace]

/-- The call `JSON.stringify(document)` for a document whose targets are
integers below `10 ^ 21` in magnitude. -/
def jsonStringify (d : Document) : String := String.mk (printDocument d)

/-- A run of decimal digits as a natural number; JSON allows no leading zero. -/
def parseNat : Parser Nat := fun input =>
  let digits := input.takeWhile Char.isDigit
  if digits = [] then none
  else if digits.head? = some '0' ∧ digits ≠ ['0'] then none
  else
    some (digits.foldl (fun acc c => 10 * acc + (c.toNat - 48)) 0,
      input.dropWhile Char.isDigit)

/-- An integer: an optional minus and digits, converted to a double as
`JSON.parse` does; an infinite result is not a target and is refused. -/
def parseIntJson : Parser Int := fun input =>
  match input with
  | [] => none
  | c :: rest =>
    if c = '-' then
      match parseNat rest with
      | none => none
      | some (n, out) =>
        match natToDouble n with
        | none => none
        | some m => some (-(m : Int), out)
    else
      match parseNat input with
      | none => none
      | some (n, out) =>
        match natToDouble n with
        | none => none
        | some m => some ((m : Int), out)

/-- A boolean literal. -/
def parseBool : Parser Bool := fun input =>
  match expect "true".toList input with
  | some out => some (true, out)
  | none =>
    match expect "false".toList input with
    | some out => some (false, out)
    | none => none

/-- The members of a non-empty object and the input after its closing brace.
`fuel` bounds the number of members. -/
def parseMembers {α : Type} (pv : Parser α) :
    Nat → List Char → Option (List (String × α) × List Char)
  | 0, _ => none
  | fuel + 1, input =>
    match parseString input with
    | none => none
    | some (k, r1) =>
      match expect [':'] r1 with
      | none => none
      | some r2 =>
        match pv r2 with
        | none => none
        | some (v, r3) =>
          match r3 with
          | [] => none
          | c :: r4 =>
            if c = ',' then
              match parseMembers pv fuel r4 with
              | none => none
              | some (ms, out) => some ((k, v) :: ms, out)
            else if c = rbrace then some ([(k, v)], r4)
            else none

/-- An object used as a dictionary: the members are written into an empty
object one after the other, as `JSON.parse` creates them. -/
def parseObject {α : Type} (pv : Parser α) : Parser (Obj α) := fun input =>
  match expect [lbrace] input with
  | none => none
  | some r =>
    match expect [rbrace] r with
    | some out => some ([], out)
    | none =>
      match parseMembers pv r.length r with
      | none => none
      | some (ms, out) => some (ms.foldl (fun acc kv => Obj.set acc kv.1 kv.2) [], out)

/-- The elements of a non-empty array and the input after its closing
bracket. -/
def parseElems {α : Type} (pv : Parser α) : Nat → List Char → Option (List α × List Char)
  | 0, _ => none
  | fuel + 1, input =>
    match pv input with
    | none => none
    | some (v, r1) =>
      match r1 with
      | [] => none
      | c :: r2 =>
        if c = ',' then
          match parseElems pv fuel r2 with
          | none => none
          | some (vs, out) => some (v :: vs, out)
        else if c = ']' then some ([v], r2)
        else none

/-- An array. -/
def parseArray {α : Type} (pv : Parser α) : Parser (List α) := fun input =>
  match expect ['['] input with
  | none => none
  | some r =>
    match expect [']'] r with
    | some out => some ([], out)
    | none => parseElems pv r.length r

/-- A habit. -/
def parseHabit : Parser Habit := fun input =>
  (expect ([lbrace] ++ keyText "id") input).bind fun r1 =>
  (parseString r1).bind fun p1 =>
  (expect ([','] ++ keyText "name") p1.2).bind fun r2 =>
  (parseString r2).bind fun p2 =>
  (expect ([','] ++ keyText "color") p2.2).bind fun r3 =>
  (parseString r3).bind fun p3 =>
  (expect [rbrace] p3.2).bind fun out =>
  some ({ id := p1.1, name := p2.1, color := p3.1 }, out)

/-- An entry. -/
def parseEntry : Parser Entry := fun input =>
  (expect ([lbrace] ++ keyText "notes") input).bind fun r1 =>
  (parseString r1).bind fun p1 =>
  (expect ([','] ++ keyText "completed") p1.2).bind fun r2 =>
  (parseObject parseBool r2).bind fun p2 =>
  (expect [rbrace] p2.2).bind fun out =>
  some ({ notes := p1.1, completed := p2.1 }, out)

/-- A goal. -/
def parseGoal : Parser Goal := fun input =>
  (expect ([lbrace] ++ keyText "id") input).bind fun r1 =>
  (parseString r1).bind fun p1 =>
  (expect ([','] ++ keyText "title") p1.2).bind fun r2 =>
  (parseString r2).bind fun p2 =>
  (expect ([','] ++ keyText "target") p2.2).bind fun r3 =>
  (parseIntJson r3).bind fun p3 =>
  (expect [rbrace] p3.2).bind fun out =>
  some ({ id := p1.1, title := p2.1, target := p3.1 }, out)

/-- A document. -/
def parseDocument : Parser Document := fun input =>
  (expect ([lbrace] ++ keyText "habits") input).bind fun r1 =>
  (parseObject parseHabit r1).bind fun p1 =>
  (expect ([','] ++ keyText "entries") p1.2).bind fun r2 =>
  (parseObject parseEntry r2).bind fun p2 =>
  (expect ([','] ++ keyText "goals") p2.2).bind fun r3 =>
  (parseObject (parseArray parseGoal) r3).bind fun p3 =>
  (expect [rbrace] p3.2).bind fun out =>
  some ({ habits := p1.1, entries := p2.1, goals := p3.1 }, out)

/-- The call `JSON.parse(raw)` on a text in the form `jsonStringify` writes:
no white space, members in the written order.  `none` stands for the
exception, and for a text of another form. -/
def jsonParse (raw : String) : Option Document :=
  match parseDocument raw.toList with
  | some (d, []) => some d
  | _ => none

/-- The keys of every object of the document are distinct, as the keys of a
JavaScript object are, and every target is an integer that a double holds and
that `JSON.stringify` writes in plain decimal (below `10 ^ 21`). -/
def Document.WellFormed (d : Document) : Prop :=
  (Obj.keys d.habits).Nodup ∧ (Obj.keys d.entries).Nodup ∧ (Obj.keys d.goals).Nodup ∧
  (∀ p ∈ d.entries, (Obj.keys p.2.completed).Nodup) ∧
  (∀ p ∈ d.goals, ∀ g ∈ p.2,
    natToDouble g.target.natAbs = some g.target.natAbs ∧ g.target.natAbs < 10 ^ 21)

/-- What may follow a number: anything but a digit. -/
def Delimited (rest : List Char) : Prop := ∀ c r, rest = c :: r → c.isDigit = false

/-! ## A second codec

The handlers take the encoder as a parameter, and what they do to the document
does not depend on it.  The codec below stands in for it where a handler is
run at a concrete input; it round-trips every document and never writes the
empty text: it numbers the documents and writes the number in unary. -/

/-- Documents as nested lists of numbers. -/
abbrev DocCode :=
  List (List Nat × List Nat × List Nat × List Nat) ×
    List (List Nat × List Nat × List (List Nat × Bool)) ×
    List (List Nat × List (List Nat × List Nat × Int))

/-- The code points of a string. -/
def strCode (s : String) : List Nat := s.toList.map Char.toNat

/-- The string with the given code points. -/
def strDecode (l : List Nat) : String := String.mk (l.map Char.ofNat)

/-- A habit as lists of numbers. -/
def habitCode (h : Habit) : List Nat × List Nat × List Nat :=
  (strCode h.id, strCode h.name, strCode h.color)

/-- The habit read back. -/
def habitDecode (t : List Nat × List Nat × List Nat) : Habit :=
  { id := strDecode t.1, name := strDecode t.2.1, color := strDecode t.2.2 }

/-- An entry as lists of numbers. -/
def entryCode (e : Entry) : List Nat × List (List Nat × Bool) :=
  (strCode e.notes, e.completed.map (fun q => (strCode q.1, q.2)))

/-- The entry read back. -/
def entryDecode (t : List Nat × List (List Nat × Bool)) : Entry :=
  { notes := strDecode t.1, completed := t.2.map (fun q => (strDecode q.1, q.2)) }

/-- A goal as lists of numbers. -/
def goalCode (g : Goal) : List Nat × List Nat × Int :=
  (strCode g.id, strCode g.title, g.target)

/-- The goal read back. -/
def goalDecode (t : List Nat × List Nat × Int) : Goal :=
  { id := strDecode t.1, title := strDecode t.2.1, target := t.2.2 }

/-- A document as nested lists of numbers. -/
def docCode (d : Document) : DocCode :=
  (d.habits.map (fun p => (strCode p.1, habitCode p.2)),
    d.entries.map (fun p => (strCode p.1, entryCode p.2)),
    d.goals.map (fun p => (strCode p.1, p.2.map goalCode)))

/-- The document read back from nested lists of numbers. -/
def docDecode (c : DocCode) : Document :=
  { habits := c.1.map (fun t => (strDecode t.1, habitDecode t.2))
    entries := c.2.1.map (fun t => (strDecode t.1, entryDecode t.2))
    goals := c.2.2.map (fun t => (strDecode t.1, t.2.map goalDecode)) }

/-- A serialiser: the number of the document, plus one, in unary. -/
def tallyStringify (d : Document) : String :=
  String.mk (List.replicate (Encodable.encode (docCode d) + 1) '|')

/-- The matching parser: it reads the length of the text. -/
def tallyParse (s : String) : Option Document :=
  if s.length = 0 then none
  else (Encodable.decode (s.length - 1) : Option DocCode).map docDecode

/-- A state with the given user and document loaded, viewing June 2025. -/
def stateOf (user : String) (d : Document) : State :=
  { username := some user, data := some d, viewYear := 2025, viewMonth := 5,
    selectedDate := "2025-06-01" }

/-! ## Merge as the specification words it -/

/-- The object `M` is the key-by-key union of `L` and `I` in which `I` wins:
its keys are those of `L` and of `I`, every key of `I` carries the record of
`I`, and every key of `L` alone keeps the record of `L`. -/
def MergedFrom {α : Type} (L I M : Obj α) : Prop :=
  ∀ k, (k ∈ Obj.keys M ↔ k ∈ Obj.keys L ∨ k ∈ Obj.keys I) ∧
    (∀ r, Obj.get I k = some r → Obj.get M k = some r) ∧
    (k ∉ Obj.keys I → Obj.get M k = Obj.get L k)

/-! ## Sample data used at concrete inputs -/

/-- A document with one habit and nothing else. -/
def docRun : Document :=
  { habits := [("h1", { id := "h1", name := "Run", color := "#06b6d4" })]
    entries := []
    goals := [] }

/-- The document `docRun` after the habit was ticked on 2025-06-01. -/
def docRunTicked : Document := toggleHabitForDayDoc docRun "h1" "2025-06-01"

/-- The document `docRun` after the habit was ticked and unticked on 2025-06-01:
the flag is stored as `false`. -/
def docRunUnticked : Document := toggleHabitForDayDoc docRunTicked "h1" "2025-06-01"

/-- A document as an imported file can leave it: one habit whose id is
`constructor`, and no entries. -/
def docConstructor : Document :=
  { habits := [("constructor", { id := "constructor", name := "Imported", color := "#4ade80" })]
    entries := []
    goals := [] }

/-- The same with the habit id `__proto__`. -/
def docProto : Document :=
  { habits := [("__proto__", { id := "__proto__", name := "Imported", color := "#4ade80" })]
    entries := []
    goals := [] }

/-- A local document: notes "A" and a tick on 2025-06-01, notes on
2025-06-02, one goal. -/
def docLocal : Document :=
  { habits := [("h1", { id := "h1", name := "Run", color := "#06b6d4" })]
    entries := [("2025-06-01", { notes := "A", completed := [("h1", true)] }),
      ("2025-06-02", { notes := "rest", completed := [] })]
    goals := [("2025-06", [{ id := "g1", title := "Move", target := 8 }])] }

/-- An incoming document: another habit, and notes "B" with an empty
`completed` for 2025-06-01. -/
def docIncoming : Document :=
  { habits := [("h2", { id := "h2", name := "Stretch", color := "#4ade80" })]
    entries := [("2025-06-01", { notes := "B", completed := [] })]
    goals := [] }

/-- A world with the given user and document loaded and an empty storage. -/
def worldOf (user : String) (d : Document) : World :=
  { state := stateOf user d, storage := [] }

/-! ## Facts about objects -/

theorem Obj.get_set_self {α : Type} (o : Obj α) (k : String) (v : α) :
    Obj.get (Obj.set o k v) k = some v := by
  induction o with
  | nil => simp [Obj.set, Obj.get]
  | cons p t ih =>
    obtain ⟨k', v'⟩ := p
    by_cases h : k' = k
    · simp [Obj.set, Obj.get, h]
    · simp [Obj.set, Obj.get, h, ih]

theorem Obj.get_set_ne {α : Type} (o : Obj α) (k k' : String) (v : α) (h : k' ≠ k) :
    Obj.get (Obj.set o k v) k' = Obj.get o k' := by
  induction o with
  | nil => simp [Obj.set, Obj.get, Ne.symm h]
  | cons p t ih =>
    obtain ⟨k0, v0⟩ := p
    by_cases h0 : k0 = k
    · subst h0
      simp [Obj.set, Obj.get, Ne.symm h]
    · by_cases h1 : k0 = k'
      · subst h1
        simp [Obj.set, Obj.get, h]
      · simp [Obj.set, Obj.get, h0, h1, ih]

theorem Obj.get_eq_none_iff {α : Type} (o : Obj α) (k : String) :
    Obj.get o k = none ↔ k ∉ Obj.keys o := by
  induction o with
  | nil => simp [Obj.get, Obj.keys]
  | cons p t ih =>
    obtain ⟨k', v'⟩ := p
    by_cases h : k' = k
    · simp [Obj.get, Obj.keys, h]
    · have ih' : Obj.get t k = none ↔ k ∉ List.map Prod.fst t := ih
      simp [Obj.get, Obj.keys, h, Ne.symm h, ih']

theorem Obj.mem_keys_iff {α : Type} (o : Obj α) (k : String) :
    k ∈ Obj.keys o ↔ ∃ v, Obj.get o k = some v := by
  rw [← not_iff_not, ← Obj.get_eq_none_iff]
  cases Obj.get o k <;> simp

theorem Obj.mem_keys_set {α : Type} (o : Obj α) (k k' : String) (v : α) :
    k' ∈ Obj.keys (Obj.set o k v) ↔ k' = k ∨ k' ∈ Obj.keys o := by
  by_cases h : k' = k
  · subst h
    simp [Obj.mem_keys_iff, Obj.get_set_self]
  · simp [Obj.mem_keys_iff, Obj.get_set_ne o k k' v h, h]

/-! ## Habit removal and toggling -/

theorem Obj.get_delete_self {α : Type} (o : Obj α) (k : String) :
    Obj.get (Obj.delete o k) k = none := by
  rw [Obj.get_eq_none_iff]
  simp [Obj.delete, Obj.keys, List.mem_filter]

theorem Obj.get_delete_ne {α : Type} (o : Obj α) (k k' : String) (h : k' ≠ k) :
    Obj.get (Obj.delete o k) k' = Obj.get o k' := by
  induction o with
  | nil => rfl
  | cons p t ih =>
    obtain ⟨k0, v0⟩ := p
    have ih' : Obj.get (List.filter (fun p => p.1 != k) t) k' = Obj.get t k' := ih
    by_cases h0 : k0 = k
    · subst h0
      simp [Obj.delete, Obj.get, Ne.symm h, ih']
    · by_cases h1 : k0 = k'
      · subst h1
        simp [Obj.delete, Obj.get, h]
      · simp [Obj.delete, Obj.get, h0, h1, ih']

theorem Obj.get_map_values {α β : Type} (f : α → β) (o : Obj α) (k : String) :
    Obj.get (o.map (fun p => (p.1, f p.2))) k = (Obj.get o k).map f := by
  induction o with
  | nil => rfl
  | cons p t ih =>
    obtain ⟨k0, v0⟩ := p
    by_cases h0 : k0 = k
    · simp [Obj.get, h0]
    · simp [Obj.get, h0, ih]

theorem Obj.keys_map_values {α β : Type} (f : α → β) (o : Obj α) :
    Obj.keys (o.map (fun p => (p.1, f p.2))) = Obj.keys o := by
  simp [Obj.keys, Function.comp_def]

/-- What the remove-habit cascade does achieve: the habit is no longer a key of
`habits`, the entry dates are the same, no entry holds `true` for the habit any
more, and the stored flags of every other habit are as before. -/
theorem removeHabit_effects (d : Document) (hid : String) :
    hid ∉ Obj.keys (removeHabit d hid).habits ∧
    Obj.keys (removeHabit d hid).entries = Obj.keys d.entries ∧
    (∀ iso, storedFlag (removeHabit d hid) hid iso ≠ some true) ∧
    (∀ h iso, h ≠ hid → storedFlag (removeHabit d hid) h iso = storedFlag d h iso) := by
  have hget : ∀ iso, Obj.get (removeHabit d hid).entries iso =
      (Obj.get d.entries iso).map (removeHabitFromEntry hid) :=
    fun iso => Obj.get_map_values (removeHabitFromEntry hid) d.entries iso
  refine ⟨?_, ?_, ?_, ?_⟩
  · rw [← Obj.get_eq_none_iff]
    exact Obj.get_delete_self d.habits hid
  · exact Obj.keys_map_values (removeHabitFromEntry hid) d.entries
  · intro iso
    simp only [storedFlag, hget]
    cases he : Obj.get d.entries iso with
    | none => simp
    | some e =>
      by_cases ht : Obj.get e.completed hid = some true
      · simp [removeHabitFromEntry, ht, Obj.get_delete_self]
      · simp [removeHabitFromEntry, ht]
  · intro h iso hne
    simp only [storedFlag, hget]
    cases he : Obj.get d.entries iso with
    | none => simp
    | some e =>
      by_cases ht : Obj.get e.completed hid = some true
      · simp [removeHabitFromEntry, ht, Obj.get_delete_ne _ _ _ hne]
      · simp [removeHabitFromEntry, ht]

theorem removeHabitClick_data (stringify : Document → String) (hid : String) (w : World)
    (d : Document) (hd : w.state.data = some d) :
    (removeHabitClick stringify true hid w).state.data = some (removeHabit d hid) := by
  simp [removeHabitClick, hd]

theorem toggleHabitForDay_data (stringify : Document → String) (hid iso : String) (w : World)
    (d : Document) (hd : w.state.data = some d) :
    (toggleHabitForDay stringify hid iso w).state.data =
      some (toggleHabitForDayDoc d hid iso) := by
  simp [toggleHabitForDay, hd]

/-- Claim C1, evaluated on the code: on the document obtained by ticking and
unticking habit `h1` on 2025-06-01, the confirmed remove-habit handler deletes
the habit but leaves the key `h1`, with the flag `false`, in that day's
`completed` map. -/
theorem removeHabit_keeps_false_flag :
    docRunUnticked.entries = [("2025-06-01", { notes := "", completed := [("h1", false)] })] ∧
    (removeHabitClick tallyStringify true "h1" (worldOf "bob" docRunUnticked)).state.data =
      some { habits := []
             entries := [("2025-06-01", { notes := "", completed := [("h1", false)] })]
             goals := [] } ∧
    ∃ e, Obj.get (removeHabit docRunUnticked "h1").entries "2025-06-01" = some e ∧
      "h1" ∈ Obj.keys e.completed := by
  refine ⟨by decide, by decide, ?_⟩
  exact ⟨{ notes := "", completed := [("h1", false)] }, by decide, by decide⟩

/-- Claim C8 as stated fails for a habit id that names an inherited member:
with habit id `constructor` on a day without entry, `completed[hid]` reads as
truthy, so the first call stores `false` and the boolean, `false` for the
missing key, is not flipped; with `__proto__` nothing is stored at all. -/
theorem toggleHabitForDay_constructor_not_flipped :
    completedFlag docConstructor "constructor" "2025-06-01" = false ∧
    (toggleHabitForDayDoc docConstructor "constructor" "2025-06-01").entries =
      [("2025-06-01", { notes := "", completed := [("constructor", false)] })] ∧
    completedFlag (toggleHabitForDayDoc docConstructor "constructor" "2025-06-01")
      "constructor" "2025-06-01" = false ∧
    (toggleHabitForDayDoc docProto "__proto__" "2025-06-01").entries =
      [("2025-06-01", { notes := "", completed := [] })] := by
  refine ⟨by decide, by decide, by decide, by decide⟩

theorem Obj.truthyAt_of_not_inherited (o : Obj Bool) (k : String)
    (hk : k ∉ objectPrototypeKeys) : Obj.truthyAt o k = (Obj.get o k == some true) := by
  unfold Obj.truthyAt
  cases h : Obj.get o k with
  | none => simp [hk]
  | some b => cases b <;> simp

theorem Obj.assignFlag_of_not_inherited (o : Obj Bool) (k : String) (flag : Bool)
    (hk : k ∉ objectPrototypeKeys) : Obj.assignFlag o k flag = Obj.set o k flag := by
  have hne : k ≠ "__proto__" := by
    intro h
    apply hk
    rw [h]
    decide
  unfold Obj.assignFlag
  cases h : Obj.get o k with
  | none => simp [hne]
  | some b => rfl

/-- Claim C8, amended: for every document, every habit id and every date that
do not name a member inherited from `Object.prototype`, one call of
`toggleHabitForDay(h, d)` flips the boolean for `(h, d)`, a missing entry or a
missing key counting as `false`, and two calls in succession restore it. -/
theorem toggleHabitForDay_flips_and_restores (d : Document) (hid iso : String)
    (hhid : hid ∉ objectPrototypeKeys) (hiso : iso ∉ objectPrototypeKeys) :
    completedFlag (toggleHabitForDayDoc d hid iso) hid iso = !completedFlag d hid iso ∧
    completedFlag (toggleHabitForDayDoc (toggleHabitForDayDoc d hid iso) hid iso) hid iso =
      completedFlag d hid iso := by
  have flip : ∀ d' : Document,
      completedFlag (toggleHabitForDayDoc d' hid iso) hid iso = !completedFlag d' hid iso := by
    intro d'
    cases h : Obj.get d'.entries iso with
    | none =>
      simp [toggleHabitForDayDoc, completedFlag, h, hiso, Obj.get_set_self, emptyEntry,
        Obj.truthyAt_of_not_inherited _ _ hhid, Obj.assignFlag_of_not_inherited _ _ _ hhid,
        Obj.get]
    | some e =>
      simp [toggleHabitForDayDoc, completedFlag, h, Obj.get_set_self,
        Obj.truthyAt_of_not_inherited _ _ hhid, Obj.assignFlag_of_not_inherited _ _ _ hhid]
  refine ⟨flip d, ?_⟩
  rw [flip, flip, Bool.not_not]

theorem toggleHabitForDay_flips_and_restores_witness :
    completedFlag (toggleHabitForDayDoc docRun "h1" "2025-06-01") "h1" "2025-06-01" =
        !completedFlag docRun "h1" "2025-06-01" ∧
    completedFlag (toggleHabitForDayDoc (toggleHabitForDayDoc docRun "h1" "2025-06-01")
        "h1" "2025-06-01") "h1" "2025-06-01" = completedFlag docRun "h1" "2025-06-01" :=
  toggleHabitForDay_flips_and_restores docRun "h1" "2025-06-01" (by decide) (by decide)

/-! ## Facts about double rounding -/

theorem roundHalfEven_intCast (n : Int) : roundHalfEven (n : ℚ) = n := by
  simp [roundHalfEven]

theorem floor_le_roundHalfEven (x : ℚ) : ⌊x⌋ ≤ roundHalfEven x := by
  unfold roundHalfEven
  simp only
  split_ifs <;> omega

theorem roundHalfEven_le_floor_add_one (x : ℚ) : roundHalfEven x ≤ ⌊x⌋ + 1 := by
  unfold roundHalfEven
  simp only
  split_ifs <;> omega

theorem roundHalfEven_mono {x y : ℚ} (h : x ≤ y) : roundHalfEven x ≤ roundHalfEven y := by
  have hfl : ⌊x⌋ ≤ ⌊y⌋ := Int.floor_le_floor h
  rcases lt_or_eq_of_le hfl with hlt | heq
  · calc roundHalfEven x ≤ ⌊x⌋ + 1 := roundHalfEven_le_floor_add_one x
      _ ≤ ⌊y⌋ := hlt
      _ ≤ roundHalfEven y := floor_le_roundHalfEven y
  · unfold roundHalfEven
    simp only
    rw [heq]
    have hfrac : x - (⌊y⌋ : ℚ) ≤ y - (⌊y⌋ : ℚ) := by linarith
    split_ifs <;> first | omega | linarith

theorem ulp_pos (x : ℚ) : 0 < ulp x := by
  unfold ulp
  positivity

theorem fl64_nonneg {x : ℚ} (hx : 0 ≤ x) : 0 ≤ fl64 x := by
  unfold fl64
  apply mul_nonneg _ (ulp_pos x).le
  have h0 : (0 : ℚ) ≤ x / ulp x := div_nonneg hx (ulp_pos x).le
  have := roundHalfEven_mono h0
  rw [show ((0 : ℚ)) = ((0 : Int) : ℚ) by simp, roundHalfEven_intCast] at this
  exact_mod_cast this

theorem fl64_eq_self_of_integral {x : ℚ} (n : Int) (h : x = n * ulp x) : fl64 x = x := by
  unfold fl64
  have hq : x / ulp x = n := by
    rw [div_eq_iff (ulp_pos x).ne']
    exact h
  rw [hq, roundHalfEven_intCast]
  exact h.symm


theorem two_zpow_binadeExp_le {x : ℚ} (hx : 0 < x) (h : -1022 < binadeExp x) :
    (2 : ℚ) ^ binadeExp x ≤ x := by
  have hlog : binadeExp x = Int.log 2 |x| := by
    unfold binadeExp at h ⊢
    rcases max_cases (Int.log 2 |x|) (-1022) with ⟨h1, _⟩ | ⟨h1, _⟩
    · exact h1
    · rw [h1] at h
      exact absurd h (lt_irrefl _)
  rw [hlog, abs_of_pos hx]
  exact_mod_cast Int.zpow_log_le_self (by norm_num : 1 < 2) hx

theorem lt_two_zpow_binadeExp_succ (x : ℚ) : |x| < (2 : ℚ) ^ (binadeExp x + 1) := by
  have h1 : |x| < ((2 : ℕ) : ℚ) ^ (Int.log 2 |x| + 1) :=
    Int.lt_zpow_succ_log_self (by norm_num : 1 < 2) |x|
  have h2 : ((2 : ℕ) : ℚ) ^ (Int.log 2 |x| + 1) ≤ (2 : ℚ) ^ (binadeExp x + 1) := by
    push_cast
    apply zpow_le_zpow_right₀ (by norm_num)
    unfold binadeExp
    have := le_max_left (Int.log 2 |x|) (-1022)
    omega
  exact lt_of_lt_of_le h1 h2

theorem binadeExp_mono {x y : ℚ} (hx : 0 < x) (hxy : x ≤ y) : binadeExp x ≤ binadeExp y := by
  unfold binadeExp
  apply max_le_max _ le_rfl
  rw [abs_of_pos hx, abs_of_pos (lt_of_lt_of_le hx hxy)]
  exact Int.log_mono_right hx hxy

theorem binadeExp_eq {x : ℚ} (e : Int) (he : -1022 ≤ e) (hlo : (2 : ℚ) ^ e ≤ |x|)
    (hhi : |x| < (2 : ℚ) ^ (e + 1)) : binadeExp x = e := by
  have hpos : 0 < |x| := lt_of_lt_of_le (by positivity) hlo
  have h1 : e ≤ Int.log 2 |x| := by
    rw [← Int.zpow_le_iff_le_log (by norm_num : 1 < 2) hpos]
    exact_mod_cast hlo
  have h2 : Int.log 2 |x| < e + 1 := by
    rw [← Int.lt_zpow_iff_log_lt (by norm_num : 1 < 2) hpos]
    exact_mod_cast hhi
  unfold binadeExp
  rw [max_eq_left (by omega)]
  omega

theorem fl64_eq_self_of_binade {x : ℚ} (e n : Int) (he : -1022 ≤ e)
    (hlo : (2 : ℚ) ^ e ≤ |x|) (hhi : |x| < (2 : ℚ) ^ (e + 1))
    (hn : x = n * (2 : ℚ) ^ (e - 52)) : fl64 x = x := by
  apply fl64_eq_self_of_integral n
  unfold ulp
  rw [binadeExp_eq e he hlo hhi]
  exact hn

theorem two_pow_53_mul_ulp (x : ℚ) :
    (((2 : Int) ^ 53 : Int) : ℚ) * ulp x = (2 : ℚ) ^ (binadeExp x + 1) := by
  unfold ulp
  rw [show binadeExp x + 1 = 53 + (binadeExp x - 52) by ring,
    zpow_add₀ (by norm_num : (2 : ℚ) ≠ 0)]
  norm_num

theorem two_pow_52_mul_ulp (x : ℚ) :
    (((2 : Int) ^ 52 : Int) : ℚ) * ulp x = (2 : ℚ) ^ binadeExp x := by
  unfold ulp
  rw [show (2 : ℚ) ^ binadeExp x = (2 : ℚ) ^ (52 + (binadeExp x - 52)) by ring_nf,
    zpow_add₀ (by norm_num : (2 : ℚ) ≠ 0)]
  norm_num

theorem fl64_zero : fl64 0 = 0 := by
  simp [fl64, roundHalfEven]

theorem fl64_mono_nonneg {x y : ℚ} (hx : 0 ≤ x) (hxy : x ≤ y) : fl64 x ≤ fl64 y := by
  rcases eq_or_lt_of_le hx with hx0 | hxpos
  · rw [← hx0, fl64_zero]
    exact fl64_nonneg (le_trans hx hxy)
  have hypos : 0 < y := lt_of_lt_of_le hxpos hxy
  rcases eq_or_lt_of_le (binadeExp_mono hxpos hxy) with heq | hlt
  · have hu : ulp x = ulp y := by
      unfold ulp
      rw [heq]
    unfold fl64
    rw [hu]
    apply mul_le_mul_of_nonneg_right _ (ulp_pos y).le
    exact_mod_cast roundHalfEven_mono (div_le_div_of_nonneg_right hxy (ulp_pos y).le)
  · have hxhi : fl64 x ≤ (2 : ℚ) ^ (binadeExp x + 1) := by
      have h1 : x / ulp x ≤ (((2 : Int) ^ 53 : Int) : ℚ) := by
        rw [div_le_iff₀ (ulp_pos x)]
        have h2 := lt_two_zpow_binadeExp_succ x
        rw [abs_of_pos hxpos] at h2
        have h3 := two_pow_53_mul_ulp x
        rw [h3]
        exact h2.le
      have h4 := roundHalfEven_mono h1
      rw [roundHalfEven_intCast] at h4
      have h5 : ((roundHalfEven (x / ulp x) : Int) : ℚ) ≤ (((2 : Int) ^ 53 : Int) : ℚ) := by
        exact_mod_cast h4
      calc fl64 x = (roundHalfEven (x / ulp x) : ℚ) * ulp x := rfl
        _ ≤ (((2 : Int) ^ 53 : Int) : ℚ) * ulp x :=
          mul_le_mul_of_nonneg_right h5 (ulp_pos x).le
        _ = (2 : ℚ) ^ (binadeExp x + 1) := two_pow_53_mul_ulp x
    have hylo : (2 : ℚ) ^ binadeExp y ≤ fl64 y := by
      have hmin : -1022 ≤ binadeExp x := le_max_right _ _
      have h0 := two_zpow_binadeExp_le hypos (by omega)
      have h1 : (((2 : Int) ^ 52 : Int) : ℚ) ≤ y / ulp y := by
        rw [le_div_iff₀ (ulp_pos y)]
        have h3 := two_pow_52_mul_ulp y
        rw [h3]
        exact h0
      have h4 := roundHalfEven_mono h1
      rw [roundHalfEven_intCast] at h4
      have h5 : (((2 : Int) ^ 52 : Int) : ℚ) ≤ ((roundHalfEven (y / ulp y) : Int) : ℚ) := by
        exact_mod_cast h4
      calc (2 : ℚ) ^ binadeExp y = (((2 : Int) ^ 52 : Int) : ℚ) * ulp y :=
            (two_pow_52_mul_ulp y).symm
        _ ≤ (roundHalfEven (y / ulp y) : ℚ) * ulp y :=
          mul_le_mul_of_nonneg_right h5 (ulp_pos y).le
        _ = fl64 y := rfl
    calc fl64 x ≤ (2 : ℚ) ^ (binadeExp x + 1) := hxhi
      _ ≤ (2 : ℚ) ^ binadeExp y := zpow_le_zpow_right₀ (by norm_num) (by omega)
      _ ≤ fl64 y := hylo


theorem fl64_intCast (n : Int) (h : |n| < 2 ^ 53) : fl64 (n : ℚ) = n := by
  by_cases h0 : n = 0
  · subst h0
    simpa using fl64_zero
  have habs : |((n : Int) : ℚ)| = ((|n| : Int) : ℚ) := by push_cast; rfl
  have hpos : (0 : ℚ) < |((n : Int) : ℚ)| := abs_pos.mpr (by exact_mod_cast h0)
  have hone : (1 : ℚ) ≤ |((n : Int) : ℚ)| := by
    rw [habs]
    have : (1 : Int) ≤ |n| := Int.one_le_abs h0
    exact_mod_cast this
  have hlo : 0 ≤ Int.log 2 |((n : Int) : ℚ)| := by
    rw [← Int.zpow_le_iff_le_log (by norm_num : 1 < 2) hpos]
    simpa using hone
  have hhi : Int.log 2 |((n : Int) : ℚ)| < 53 := by
    rw [← Int.lt_zpow_iff_log_lt (by norm_num : 1 < 2) hpos, habs]
    have : ((|n| : Int) : ℚ) < (((2 : Int) ^ 53 : Int) : ℚ) := by exact_mod_cast h
    norm_num at this ⊢
    exact this
  have he : binadeExp (n : ℚ) = Int.log 2 |((n : Int) : ℚ)| := by
    unfold binadeExp
    exact max_eq_left (by omega)
  obtain ⟨k, hk⟩ : ∃ k : ℕ, (k : Int) = 52 - binadeExp (n : ℚ) :=
    ⟨(52 - binadeExp (n : ℚ)).toNat, Int.toNat_of_nonneg (by omega)⟩
  apply fl64_eq_self_of_integral (n * 2 ^ k)
  unfold ulp
  rw [show binadeExp (n : ℚ) - 52 = -(k : Int) by omega, zpow_neg, zpow_natCast]
  push_cast
  field_simp

theorem fl64_natCast (n : Nat) (h : n < 2 ^ 53) : fl64 (n : ℚ) = n := by
  have := fl64_intCast (n : Int) (by
    rw [abs_of_nonneg (Int.natCast_nonneg n)]
    exact_mod_cast h)
  exact_mod_cast this

/-! ## Goal progress -/

theorem foldl_count_eq (p : Nat → Bool) (l : List Nat) (n : Nat) :
    l.foldl (fun c x => if p x then c + 1 else c) n = n + l.countP p := by
  induction l generalizing n with
  | nil => simp
  | cons x t ih =>
    by_cases hx : p x
    · simp [List.foldl_cons, hx, ih, List.countP_cons_of_pos]
      omega
    · simp [List.foldl_cons, hx, ih]

theorem countCompletions_eq_spec (d : Document) (year : Int) (month : Nat) :
    countCompletions d year month = specCompletions d year month := by
  unfold countCompletions specCompletions
  rw [foldl_count_eq (fun day => isCompletionDay d (isoDate year month day))]
  simp

theorem countCompletions_docRunTicked : countCompletions docRunTicked 2025 5 = 1 := by
  decide

theorem countCompletions_emptyDocument : countCompletions emptyDocument 2025 5 = 0 := by
  decide

theorem daysInMonth_le (year : Int) (month : Nat) : daysInMonth year month ≤ 31 := by
  unfold daysInMonth
  simp only
  split
  · split_ifs <;> omega
  all_goals omega

theorem countCompletions_le (d : Document) (year : Int) (month : Nat) :
    countCompletions d year month ≤ 31 := by
  rw [countCompletions_eq_spec]
  unfold specCompletions
  calc List.countP _ (monthDays year month) ≤ (monthDays year month).length :=
        List.countP_le_length _
    _ = daysInMonth year month := by simp [monthDays]
    _ ≤ 31 := daysInMonth_le year month

theorem jsRound_mono {x y : ℚ} (h : x ≤ y) : jsRound x ≤ jsRound y := by
  unfold jsRound
  exact Int.floor_le_floor (by linarith)

theorem jsRound_intCast (n : Int) : jsRound (n : ℚ) = n := by
  unfold jsRound
  rw [Int.floor_eq_iff]
  constructor <;> norm_num

/-- With divisor 1 nothing is rounded away: the percent is `completions * 100`,
capped at 100. -/
theorem percent_divisor_one (c : Nat) (hc : c ≤ 31) :
    min 100 (jsRound (fl64 (fl64 ((c : ℚ) / ((1 : Int) : ℚ)) * 100))) =
      min 100 ((c : Int) * 100) := by
  have h1 : fl64 ((c : ℚ) / ((1 : Int) : ℚ)) = (c : ℚ) := by
    rw [Int.cast_one, div_one]
    exact fl64_natCast c (by omega)
  have h2 : fl64 ((c : ℚ) * 100) = (((c : Int) * 100 : Int) : ℚ) := by
    have h := fl64_natCast (c * 100) (by omega)
    push_cast at h ⊢
    exact h
  rw [h1, h2, jsRound_intCast]

theorem fl64_neg_one : fl64 (-1) = -1 := by
  have h := fl64_intCast (-1) (by norm_num)
  push_cast at h
  exact h

theorem fl64_neg_hundred : fl64 (-100) = -100 := by
  have h := fl64_intCast (-100) (by norm_num)
  push_cast at h
  exact h

/-- The code at target `-1` in June 2025: `0` without a completion day, `-100`
with one. -/
theorem percent_target_neg_one :
    computeGoalProgressPct emptyDocument { id := "g", title := "Move", target := -1 } 2025 5
        = 0 ∧
    computeGoalProgressPct docRunTicked { id := "g", title := "Move", target := -1 } 2025 5
        = -100 := by
  constructor
  · simp only [computeGoalProgressPct, countCompletions_emptyDocument, targetOrOne]
    norm_num [fl64_zero, jsRound]
  · simp only [computeGoalProgressPct, countCompletions_docRunTicked, targetOrOne]
    norm_num [fl64_neg_one, fl64_neg_hundred, jsRound]

/-- Claim C2 as stated fails: with target `-1` and one completion day in June
2025 the code returns `-100`, where the stated formula gives `100`. -/
theorem computeGoalProgressPct_negative_target :
    computeGoalProgressPct docRunTicked { id := "g", title := "Move", target := -1 } 2025 5
        = -100 ∧
    specPercent docRunTicked (-1) 2025 5 = 100 := by
  refine ⟨percent_target_neg_one.2, ?_⟩
  have h := percent_divisor_one 1 (by norm_num)
  simp only [specPercent, ← countCompletions_eq_spec, countCompletions_docRunTicked,
    specEffectiveTarget]
  norm_num at h ⊢
  exact h

/-- Claim C2, amended: for every document, goal and month the code returns
`min(100, round(completions / divisor * 100))` where `completions` counts the
completion days of the month and the divisor is the target when it is not
zero, else 1; for every target that is not negative this is the stated
formula. -/
theorem computeGoalProgressPct_formula (d : Document) (goal : Goal) (year : Int)
    (month : Nat) :
    computeGoalProgressPct d goal year month =
        min 100 (jsRound (fl64 (fl64 ((specCompletions d year month : ℚ) /
          ((if goal.target ≠ 0 then goal.target else 1 : Int) : ℚ)) * 100))) ∧
    (0 ≤ goal.target →
      computeGoalProgressPct d goal year month = specPercent d goal.target year month) := by
  constructor
  · unfold computeGoalProgressPct targetOrOne
    rw [countCompletions_eq_spec]
    by_cases h : goal.target = 0 <;> simp [h]
  · intro h
    unfold computeGoalProgressPct targetOrOne specPercent specEffectiveTarget
    rw [countCompletions_eq_spec]
    by_cases h0 : goal.target = 0
    · simp [h0]
    · have hpos : 0 < goal.target := lt_of_le_of_ne h (Ne.symm h0)
      simp [h0, hpos]

theorem computeGoalProgressPct_formula_witness :
    computeGoalProgressPct docRunTicked { id := "g", title := "Move", target := 8 } 2025 5 =
      specPercent docRunTicked 8 2025 5 :=
  (computeGoalProgressPct_formula docRunTicked { id := "g", title := "Move", target := 8 }
    2025 5).2 (by decide)

/-- Claim C9 as stated fails: with target `-1`, the empty document has no
completion day in June 2025 and gets `0`, while a document with one more
completion day gets `-100`. -/
theorem computeGoalProgressPct_not_monotone_negative_target :
    (∀ day ∈ monthDays 2025 5,
      isCompletionDay emptyDocument (isoDate 2025 5 day) = true →
      isCompletionDay docRunTicked (isoDate 2025 5 day) = true) ∧
    ¬ (computeGoalProgressPct emptyDocument { id := "g", title := "Move", target := -1 } 2025 5
        ≤ computeGoalProgressPct docRunTicked { id := "g", title := "Move", target := -1 }
            2025 5) := by
  constructor
  · intro day _ h
    simp [isCompletionDay, emptyDocument, Obj.get] at h
  · rw [percent_target_neg_one.1, percent_target_neg_one.2]
    decide

/-- Claim C9, amended: for a fixed goal whose target is not negative and a
fixed month, if every completion day of `d1` in the month is a completion day
of `d2`, the percent on `d1` is at most the percent on `d2`. -/
theorem computeGoalProgressPct_monotone (d1 d2 : Document) (goal : Goal) (year : Int)
    (month : Nat) (htarget : 0 ≤ goal.target)
    (hdays : ∀ day ∈ monthDays year month,
      isCompletionDay d1 (isoDate year month day) = true →
      isCompletionDay d2 (isoDate year month day) = true) :
    computeGoalProgressPct d1 goal year month ≤ computeGoalProgressPct d2 goal year month := by
  have hcount : countCompletions d1 year month ≤ countCompletions d2 year month := by
    rw [countCompletions_eq_spec, countCompletions_eq_spec]
    exact List.countP_mono_left hdays
  have hT : (0 : ℚ) < (targetOrOne goal.target : ℚ) := by
    unfold targetOrOne
    by_cases h0 : goal.target = 0
    · simp [h0]
    · have hpos : 0 < goal.target := lt_of_le_of_ne htarget (Ne.symm h0)
      simp only [h0, if_false]
      exact_mod_cast hpos
  have hq : (countCompletions d1 year month : ℚ) ≤ (countCompletions d2 year month : ℚ) := by
    exact_mod_cast hcount
  have hdiv : fl64 ((countCompletions d1 year month : ℚ) / (targetOrOne goal.target : ℚ)) ≤
      fl64 ((countCompletions d2 year month : ℚ) / (targetOrOne goal.target : ℚ)) :=
    fl64_mono_nonneg (div_nonneg (Nat.cast_nonneg _) hT.le)
      (div_le_div_of_nonneg_right hq hT.le)
  have hdiv0 : 0 ≤ fl64 ((countCompletions d1 year month : ℚ) / (targetOrOne goal.target : ℚ)) :=
    fl64_nonneg (div_nonneg (Nat.cast_nonneg _) hT.le)
  unfold computeGoalProgressPct
  apply min_le_min le_rfl
  apply jsRound_mono
  apply fl64_mono_nonneg (mul_nonneg hdiv0 (by norm_num))
  exact mul_le_mul_of_nonneg_right hdiv (by norm_num)

theorem computeGoalProgressPct_monotone_witness :
    computeGoalProgressPct emptyDocument { id := "g", title := "Move", target := 8 } 2025 5 ≤
      computeGoalProgressPct docRunTicked { id := "g", title := "Move", target := 8 } 2025 5 :=
  computeGoalProgressPct_monotone emptyDocument docRunTicked
    { id := "g", title := "Move", target := 8 } 2025 5 (by decide)
    (by
      intro day _ h
      simp [isCompletionDay, emptyDocument, Obj.get] at h)

/-- Claim C10: the divisor is never zero; a goal with target 0 gets the same
percent as the same goal with target 1, which is 0 when the month has no
completion day and 100 otherwise. -/
theorem computeGoalProgressPct_target_zero (d : Document) (goal : Goal) (year : Int)
    (month : Nat) :
    targetOrOne goal.target ≠ 0 ∧
    computeGoalProgressPct d { goal with target := 0 } year month =
      computeGoalProgressPct d { goal with target := 1 } year month ∧
    computeGoalProgressPct d { goal with target := 0 } year month =
      (if hasCompletionDay d year month then 100 else 0) := by
  refine ⟨?_, by simp [computeGoalProgressPct, targetOrOne], ?_⟩
  · unfold targetOrOne
    by_cases h : goal.target = 0 <;> simp [h]
  have hany : hasCompletionDay d year month = true ↔ 0 < countCompletions d year month := by
    rw [countCompletions_eq_spec]
    unfold hasCompletionDay specCompletions
    rw [List.countP_pos_iff, List.any_eq_true]
  have hval : computeGoalProgressPct d { goal with target := 0 } year month =
      min 100 ((countCompletions d year month : Int) * 100) := by
    simp only [computeGoalProgressPct, targetOrOne, if_true]
    exact percent_divisor_one _ (countCompletions_le d year month)
  rw [hval]
  by_cases hc : hasCompletionDay d year month = true
  · have hpos := hany.mp hc
    simp only [hc, if_true]
    omega
  · have hzero : countCompletions d year month = 0 := by
      have := mt hany.mpr hc
      omega
    simp [hc, hzero]

/-! ## Parsing integers -/

theorem natToDouble_small (n : Nat) (h : n < 2 ^ 53) : natToDouble n = some n := by
  unfold natToDouble
  rw [fl64_natCast n h]
  have hlt : ¬ ((2 : ℚ) ^ 1024 ≤ (n : ℚ)) := by
    have h1 : (n : ℚ) < (2 : ℚ) ^ 53 := by exact_mod_cast h
    have h2 : (2 : ℚ) ^ 53 ≤ (2 : ℚ) ^ 1024 := pow_le_pow_right₀ (by norm_num) (by norm_num)
    linarith
  rw [if_neg hlt]
  simp

theorem parseInt10_of_digits (s : String) (negative : Bool) (n : Nat)
    (hd : parseIntDigits s = some (negative, n)) (h : n < 2 ^ 53) :
    parseInt10 s = ParsedInt.finite (if negative then -(n : Int) else (n : Int)) := by
  simp [parseInt10, hd, natToDouble_small n h]

theorem parseInt10_neg_five : parseInt10 "-5" = ParsedInt.finite (-5) :=
  parseInt10_of_digits "-5" true 5 (by decide) (by norm_num)

theorem parseInt10_three : parseInt10 "3" = ParsedInt.finite 3 :=
  parseInt10_of_digits "3" false 3 (by decide) (by norm_num)

theorem parseInt10_abc : parseInt10 "abc" = ParsedInt.nan := by
  have hd : parseIntDigits "abc" = none := by decide
  simp [parseInt10, hd]

/-- The integer `2 ^ 53 + 1` is not a double: it rounds down to `2 ^ 53`. -/
theorem fl64_two_pow_53_succ : fl64 9007199254740993 = 9007199254740992 := by
  have he : binadeExp (9007199254740993 : ℚ) = 53 := by
    apply binadeExp_eq 53 (by norm_num)
    · rw [abs_of_pos (by norm_num)]; norm_num
    · rw [abs_of_pos (by norm_num)]; norm_num
  have hu : ulp (9007199254740993 : ℚ) = 2 := by
    unfold ulp
    rw [he]
    norm_num
  have hr : roundHalfEven ((9007199254740993 : ℚ) / 2) = 4503599627370496 := by
    have hf : ⌊(9007199254740993 : ℚ) / 2⌋ = 4503599627370496 := by
      rw [Int.floor_eq_iff]
      constructor <;> norm_num
    unfold roundHalfEven
    simp only [hf]
    norm_num
  unfold fl64
  rw [hu, hr]
  norm_num

theorem natToDouble_of_fl64 (n m : Nat) (h : fl64 (n : ℚ) = (m : ℚ))
    (hm : (m : ℚ) < (2 : ℚ) ^ 1024) : natToDouble n = some m := by
  unfold natToDouble
  rw [h, if_neg (not_le.mpr hm)]
  simp

theorem parseInt10_of_natToDouble (s : String) (negative : Bool) (n m : Nat)
    (hd : parseIntDigits s = some (negative, n)) (hn : natToDouble n = some m) :
    parseInt10 s = ParsedInt.finite (if negative then -(m : Int) else (m : Int)) := by
  simp [parseInt10, hd, hn]

theorem natToDouble_unsafe_integer : natToDouble 9007199254740993 = some 9007199254740992 := by
  apply natToDouble_of_fl64
  · simp only [Nat.cast_ofNat]
    exact fl64_two_pow_53_succ
  · have h1 : ((9007199254740992 : Nat) : ℚ) < (2 : ℚ) ^ 54 := by norm_num
    exact lt_of_lt_of_le h1 (pow_le_pow_right₀ (by norm_num) (by norm_num))

theorem parseIntDigits_unsafe_integer :
    parseIntDigits "9007199254740993" = some (false, 9007199254740993) := by
  decide

/-- The parse rounds as the code does: a digit string past `2 ^ 53` gives the
nearest double, not the exact integer. -/
theorem parseInt10_unsafe_integer :
    parseInt10 "9007199254740993" = ParsedInt.finite 9007199254740992 := by
  have h := parseInt10_of_natToDouble "9007199254740993" false 9007199254740993
    9007199254740992 parseIntDigits_unsafe_integer natToDouble_unsafe_integer
  simpa using h

/-! ## Persistence -/

theorem strDecode_strCode (s : String) : strDecode (strCode s) = s := by
  unfold strDecode strCode
  rw [List.map_map]
  have h : (Char.ofNat ∘ Char.toNat) = id := by
    funext c
    simp
  rw [h, List.map_id]
  rfl

theorem habitDecode_habitCode (h : Habit) : habitDecode (habitCode h) = h := by
  simp [habitDecode, habitCode, strDecode_strCode]

theorem entryDecode_entryCode (e : Entry) : entryDecode (entryCode e) = e := by
  obtain ⟨notes, completed⟩ := e
  simp [entryDecode, entryCode, strDecode_strCode, Function.comp_def]

theorem goalDecode_goalCode (g : Goal) : goalDecode (goalCode g) = g := by
  simp [goalDecode, goalCode, strDecode_strCode]

theorem docDecode_docCode (d : Document) : docDecode (docCode d) = d := by
  obtain ⟨habits, entries, goals⟩ := d
  simp [docDecode, docCode, strDecode_strCode, habitDecode_habitCode, entryDecode_entryCode,
    goalDecode_goalCode, Function.comp_def]

theorem tallyParse_tallyStringify (d : Document) : tallyParse (tallyStringify d) = some d := by
  simp [tallyParse, tallyStringify, Encodable.encodek, docDecode_docCode]

theorem tallyStringify_ne_empty (d : Document) : tallyStringify d ≠ "" := by
  intro h
  have hlen := congrArg String.length h
  simp [tallyStringify] at hlen

theorem hexValue_hexDigit (k : Nat) (h : k < 16) : hexValue (hexDigit k) = some k := by
  interval_cases k <;> decide

theorem char_eq_of_toNat_eq (c : Char) (n : Nat) (h : c.toNat = n) : c = Char.ofNat n := by
  rw [← h, Char.ofNat_toNat]

/-- Reading back the escape written for a character that needs one. -/
theorem parseEscape_jsonEscapeChar (c : Char) (rest : List Char)
    (h : c = dquote ∨ c = backslash ∨ c.toNat < 32) :
    ∃ tail, jsonEscapeChar c = backslash :: tail ∧
      parseEscape (tail ++ rest) = some (c, rest) := by
  by_cases h1 : c = dquote
  · subst h1
    exact ⟨[dquote], by decide, by simp [parseEscape]⟩
  by_cases h2 : c = backslash
  · subst h2
    refine ⟨[backslash], by decide, ?_⟩
    have : backslash ≠ dquote := by decide
    simp [parseEscape, this]
  have hlt : c.toNat < 32 := by
    rcases h with h | h | h
    · exact absurd h h1
    · exact absurd h h2
    · exact h
  by_cases h8 : c.toNat = 8
  · have hc := char_eq_of_toNat_eq c 8 h8
    subst hc
    have hq : ('b' : Char) ≠ dquote := by decide
    have hb : ('b' : Char) ≠ backslash := by decide
    exact ⟨['b'], by decide, by simp [parseEscape, hq, hb]⟩
  by_cases h9 : c.toNat = 9
  · have hc := char_eq_of_toNat_eq c 9 h9
    subst hc
    have hq : ('t' : Char) ≠ dquote := by decide
    have hb : ('t' : Char) ≠ backslash := by decide
    exact ⟨['t'], by decide, by simp [parseEscape, hq, hb]⟩
  by_cases h10 : c.toNat = 10
  · have hc := char_eq_of_toNat_eq c 10 h10
    subst hc
    have hq : ('n' : Char) ≠ dquote := by decide
    have hb : ('n' : Char) ≠ backslash := by decide
    exact ⟨['n'], by decide, by simp [parseEscape, hq, hb]⟩
  by_cases h12 : c.toNat = 12
  · have hc := char_eq_of_toNat_eq c 12 h12
    subst hc
    have hq : ('f' : Char) ≠ dquote := by decide
    have hb : ('f' : Char) ≠ backslash := by decide
    exact ⟨['f'], by decide, by simp [parseEscape, hq, hb]⟩
  by_cases h13 : c.toNat = 13
  · have hc := char_eq_of_toNat_eq c 13 h13
    subst hc
    have hq : ('r' : Char) ≠ dquote := by decide
    have hb : ('r' : Char) ≠ backslash := by decide
    exact ⟨['r'], by decide, by simp [parseEscape, hq, hb]⟩
  refine ⟨['u', '0', '0', hexDigit (c.toNat / 16), hexDigit (c.toNat % 16)], ?_, ?_⟩
  · simp [jsonEscapeChar, h1, h2, h8, h9, h10, h12, h13, hlt]
  · have hu1 : ('u' : Char) ≠ dquote := by decide
    have hu2 : ('u' : Char) ≠ backslash := by decide
    have hz : hexValue '0' = some 0 := by decide
    have ha := hexValue_hexDigit (c.toNat / 16) (by omega)
    have hb := hexValue_hexDigit (c.toNat % 16) (by omega)
    have hval : ((0 * 16 + 0) * 16 + c.toNat / 16) * 16 + c.toNat % 16 = c.toNat := by omega
    simp only [parseEscape, List.cons_append, List.nil_append, hu1, hu2, if_false, hz, ha, hb,
      hval, Char.ofNat_toNat]
    simp

theorem jsonEscapeChar_plain (c : Char) (h1 : c ≠ dquote) (h2 : c ≠ backslash)
    (h3 : ¬ c.toNat < 32) : jsonEscapeChar c = [c] := by
  have h8 : c.toNat ≠ 8 := by omega
  have h9 : c.toNat ≠ 9 := by omega
  have h10 : c.toNat ≠ 10 := by omega
  have h12 : c.toNat ≠ 12 := by omega
  have h13 : c.toNat ≠ 13 := by omega
  simp [jsonEscapeChar, h1, h2, h3, h8, h9, h10, h12, h13]

theorem length_le_flatMap_jsonEscapeChar (cs : List Char) :
    cs.length ≤ (cs.flatMap jsonEscapeChar).length := by
  induction cs with
  | nil => simp
  | cons c t ih =>
    have hpos : 1 ≤ (jsonEscapeChar c).length := by
      by_cases h : c = dquote ∨ c = backslash ∨ c.toNat < 32
      · obtain ⟨tail, ht, _⟩ := parseEscape_jsonEscapeChar c [] h
        rw [ht]
        simp
      · push_neg at h
        rw [jsonEscapeChar_plain c h.1 h.2.1 (by omega)]
        simp
    simp only [List.flatMap_cons, List.length_append, List.length_cons]
    omega

/-- Reading back the body of a string as it was written. -/
theorem parseStringBody_flatMap (cs : List Char) (rest : List Char) (fuel : Nat)
    (h : cs.length < fuel) :
    parseStringBody fuel (cs.flatMap jsonEscapeChar ++ dquote :: rest) = some (cs, rest) := by
  induction cs generalizing fuel with
  | nil =>
    obtain ⟨k, rfl⟩ : ∃ k, fuel = k + 1 := ⟨fuel - 1, by simp at h; omega⟩
    simp [parseStringBody]
  | cons c t ih =>
    obtain ⟨k, rfl⟩ : ∃ k, fuel = k + 1 := ⟨fuel - 1, by simp at h; omega⟩
    have hk : t.length < k := by simp at h; omega
    by_cases hesc : c = dquote ∨ c = backslash ∨ c.toNat < 32
    · obtain ⟨tail, ht, hp⟩ :=
        parseEscape_jsonEscapeChar c (t.flatMap jsonEscapeChar ++ dquote :: rest) hesc
      have hbq : backslash ≠ dquote := by decide
      simp only [List.flatMap_cons, ht, List.cons_append, List.append_assoc, parseStringBody,
        hbq, if_false, if_true, hp, ih k hk]
    · push_neg at hesc
      rw [List.flatMap_cons, jsonEscapeChar_plain c hesc.1 hesc.2.1 (by omega)]
      have h3 : ¬ c.toNat < 32 := by omega
      have hrec := ih k hk
      simp only [List.cons_append, List.nil_append, parseStringBody, hesc.1, hesc.2.1, h3,
        if_false]
      simp only [List.append_eq, List.nil_append] at hrec ⊢
      rw [hrec]

/-- Reading back a string as `jsonQuote` wrote it. -/
theorem parseString_jsonQuote (s : String) (rest : List Char) :
    parseString (jsonQuote s ++ rest) = some (s, rest) := by
  have hlen := length_le_flatMap_jsonEscapeChar s.toList
  have hbody := parseStringBody_flatMap s.toList rest
    ((s.toList.flatMap jsonEscapeChar ++ dquote :: rest).length + 1)
    (by simp only [List.length_append, List.length_cons]; omega)
  simp only [jsonQuote, parseString, List.cons_append, List.append_assoc, List.singleton_append,
    List.nil_append, if_true, hbody]
  rfl

theorem expect_append (lit rest : List Char) : expect lit (lit ++ rest) = some rest := by
  unfold expect
  have hp : lit.isPrefixOf (lit ++ rest) = true := by
    rw [List.isPrefixOf_iff_prefix]
    exact List.prefix_append lit rest
  rw [if_pos hp, List.drop_left]

theorem delimited_nil : Delimited [] := by
  intro c r h
  cases h

theorem delimited_cons (c : Char) (r : List Char) (h : c.isDigit = false) :
    Delimited (c :: r) := by
  intro c' r' h'
  cases h'
  exact h

theorem digitChar_isDigit (n : Nat) (h : n < 10) : (digitChar n).isDigit = true := by
  interval_cases n <;> decide

theorem digitChar_toNat (n : Nat) (h : n < 10) : (digitChar n).toNat - 48 = n := by
  interval_cases n <;> decide

theorem takeWhile_digits (ds rest : List Char) (hds : ∀ c ∈ ds, c.isDigit = true)
    (hrest : Delimited rest) :
    (ds ++ rest).takeWhile Char.isDigit = ds ∧ (ds ++ rest).dropWhile Char.isDigit = rest := by
  induction ds with
  | nil =>
    cases rest with
    | nil => simp
    | cons c r =>
      have hc := hrest c r rfl
      simp [List.takeWhile, List.dropWhile, hc]
  | cons d t ih =>
    have hd : d.isDigit = true := hds d (List.mem_cons_self d t)
    have ht := ih (fun c hc => hds c (List.mem_cons_of_mem d hc))
    simp [List.takeWhile, List.dropWhile, hd, ht.1, ht.2]

theorem foldl_digits (L : List Nat) (hL : ∀ d ∈ L, d < 10) :
    (L.reverse.map digitChar).foldl (fun acc c => 10 * acc + (c.toNat - 48)) 0 =
      Nat.ofDigits 10 L := by
  induction L with
  | nil => simp
  | cons d t ih =>
    have hd : d < 10 := hL d (List.mem_cons_self d t)
    have ht := ih (fun x hx => hL x (List.mem_cons_of_mem d hx))
    simp only [List.reverse_cons, List.map_append, List.map_cons, List.map_nil,
      List.foldl_append, List.foldl_cons, List.foldl_nil, ht, digitChar_toNat d hd,
      Nat.ofDigits_cons]
    ring

/-- Reading back a natural number as `natText` wrote it. -/
theorem parseNat_natText (n : Nat) (rest : List Char) (hrest : Delimited rest) :
    parseNat (natText n ++ rest) = some (n, rest) := by
  have hall : ∀ c ∈ natText n, c.isDigit = true := by
    intro c hc
    unfold natText at hc
    by_cases h0 : n = 0
    · simp [h0] at hc
      subst hc
      decide
    · simp only [h0, if_false, List.mem_map, List.mem_reverse] at hc
      obtain ⟨d, hd, rfl⟩ := hc
      exact digitChar_isDigit d (Nat.digits_lt_base (by norm_num) hd)
  have hne : natText n ≠ [] := by
    unfold natText
    by_cases h0 : n = 0
    · simp [h0]
    · simp [h0, Nat.digits_ne_nil_iff_ne_zero]
  have hval : (natText n).foldl (fun acc c => 10 * acc + (c.toNat - 48)) 0 = n := by
    unfold natText
    by_cases h0 : n = 0
    · subst h0
      decide
    · simp only [h0, if_false]
      rw [foldl_digits _ (fun d hd => Nat.digits_lt_base (by norm_num) hd),
        Nat.ofDigits_digits]
  have hlead : ¬ ((natText n).head? = some '0' ∧ natText n ≠ ['0']) := by
    rintro ⟨hhead, hnot⟩
    apply hnot
    unfold natText at hhead ⊢
    by_cases h0 : n = 0
    · simp [h0]
    · exfalso
      simp only [h0, if_false, List.head?_map, List.head?_reverse] at hhead
      rw [List.getLast?_eq_getLast _ (Nat.digits_ne_nil_iff_ne_zero.mpr h0)] at hhead
      have hlast := Nat.getLast_digit_ne_zero 10 h0
      have hlt : (Nat.digits 10 n).getLast (Nat.digits_ne_nil_iff_ne_zero.mpr h0) < 10 :=
        Nat.digits_lt_base (by norm_num) (List.getLast_mem _)
      simp only [Option.map_some', Option.some.injEq] at hhead
      generalize (Nat.digits 10 n).getLast (Nat.digits_ne_nil_iff_ne_zero.mpr h0) = d at *
      interval_cases d
      · exact hlast rfl
      all_goals exact absurd hhead (by decide)
  obtain ⟨h1, h2⟩ := takeWhile_digits (natText n) rest hall hrest
  simp only [parseNat, h1, h2, hne, hlead, if_false, hval]

/-- Reading back an integer target as `intText` wrote it. -/
theorem parseIntJson_intText (t : Int) (rest : List Char) (hrest : Delimited rest)
    (ht : natToDouble t.natAbs = some t.natAbs) :
    parseIntJson (intText t ++ rest) = some (t, rest) := by
  by_cases hneg : t < 0
  · have hval : -((t.natAbs : Nat) : Int) = t := by omega
    simp only [intText, hneg, if_true, List.cons_append, parseIntJson,
      parseNat_natText t.natAbs rest hrest, ht, hval]
  · have hval : ((t.natAbs : Nat) : Int) = t := by omega
    have hhead : ∀ c r, natText t.natAbs ++ rest = c :: r → c ≠ '-' := by
      intro c r hcr hc
      subst hc
      have h1 := (takeWhile_digits (natText t.natAbs) rest (by
        intro c hc
        have := parseNat_natText t.natAbs [] delimited_nil
        unfold natText at hc
        by_cases h0 : t.natAbs = 0
        · simp [h0] at hc
          subst hc
          decide
        · simp only [h0, if_false, List.mem_map, List.mem_reverse] at hc
          obtain ⟨d, hd, rfl⟩ := hc
          exact digitChar_isDigit d (Nat.digits_lt_base (by norm_num) hd)) hrest).1
      rw [hcr] at h1
      have hd : ('-' : Char).isDigit = false := by decide
      simp [List.takeWhile, hd] at h1
      have hp := parseNat_natText t.natAbs rest hrest
      rw [hcr] at hp
      simp [parseNat, List.takeWhile, hd] at hp
    simp only [intText, hneg, if_false]
    cases hcase : natText t.natAbs ++ rest with
    | nil =>
      have hp := parseNat_natText t.natAbs rest hrest
      rw [hcase] at hp
      simp [parseNat] at hp
    | cons c r =>
      have hc := hhead c r hcase
      have hp := parseNat_natText t.natAbs rest hrest
      rw [hcase] at hp
      simp only [parseIntJson, hc, if_false, hp, ht, hval]

/-- Reading back a boolean. -/
theorem parseBool_boolText (b : Bool) (rest : List Char) :
    parseBool (boolText b ++ rest) = some (b, rest) := by
  cases b
  · have h1 : expect "true".toList ("false".toList ++ rest) = none := by
      simp [expect, List.isPrefixOf]
    have h2 : boolText false = "false".toList := rfl
    rw [h2]
    simp only [parseBool, h1, expect_append]
  · have h2 : boolText true = "true".toList := rfl
    rw [h2]
    simp only [parseBool, expect_append]

theorem expect_singleton_ne (c c' : Char) (r : List Char) (h : c ≠ c') :
    expect [c] (c' :: r) = none := by
  simp [expect, List.isPrefixOf, h]

theorem expect_singleton_nil (c : Char) : expect [c] [] = none := by
  simp [expect, List.isPrefixOf]

theorem keyText_cons (k : String) (rest : List Char) :
    ∃ tl, keyText k ++ rest = dquote :: tl := by
  refine ⟨k.toList.flatMap jsonEscapeChar ++ [dquote] ++ [':'] ++ rest, ?_⟩
  simp [keyText, jsonQuote]

theorem length_le_printMembers {α : Type} (pr : α → List Char) (ms : List (String × α)) :
    ms.length ≤ (printMembers pr ms).length := by
  induction ms with
  | nil => simp
  | cons kv t ih =>
    cases t with
    | nil =>
      obtain ⟨tl, h⟩ := keyText_cons kv.1 (pr kv.2)
      simp only [printMembers, h, List.length_cons, List.length_nil]
      omega
    | cons m t' =>
      simp only [printMembers, List.length_append, List.length_cons, List.length_nil] at ih ⊢
      omega

/-- Reading back the members of a non-empty object. -/
theorem parseMembers_printMembers {α : Type} (pr : α → List Char) (pv : Parser α)
    (kv : String × α) (t : List (String × α)) (rest : List Char) (fuel : Nat)
    (hlaw : ∀ p ∈ kv :: t, ∀ r, Delimited r → pv (pr p.2 ++ r) = some (p.2, r))
    (hfuel : (kv :: t).length ≤ fuel) :
    parseMembers pv fuel (printMembers pr (kv :: t) ++ rbrace :: rest) =
      some (kv :: t, rest) := by
  induction t generalizing kv fuel with
  | nil =>
    obtain ⟨k, rfl⟩ : ∃ k, fuel = k + 1 := ⟨fuel - 1, by simp at hfuel; omega⟩
    have hs : parseString (keyText kv.1 ++ (pr kv.2 ++ rbrace :: rest)) =
        some (kv.1, ':' :: (pr kv.2 ++ rbrace :: rest)) := by
      have h : keyText kv.1 ++ (pr kv.2 ++ rbrace :: rest) =
          jsonQuote kv.1 ++ (':' :: (pr kv.2 ++ rbrace :: rest)) := by simp [keyText]
      rw [h, parseString_jsonQuote]
    have he : expect [':'] (':' :: (pr kv.2 ++ rbrace :: rest)) =
        some (pr kv.2 ++ rbrace :: rest) := expect_append [':'] _
    have hv := hlaw kv (List.mem_cons_self kv []) (rbrace :: rest)
      (delimited_cons rbrace rest (by decide))
    have hc : rbrace ≠ ',' := by decide
    simp only [printMembers, List.append_assoc, parseMembers, hs, he, hv, hc, if_false, if_true]
  | cons m t' ih =>
    obtain ⟨k, rfl⟩ : ∃ k, fuel = k + 1 := ⟨fuel - 1, by simp at hfuel; omega⟩
    have hrec := ih m k (fun p hp r hr => hlaw p (List.mem_cons_of_mem kv hp) r hr)
      (by simp at hfuel ⊢; omega)
    have htail : printMembers pr (kv :: m :: t') ++ rbrace :: rest =
        keyText kv.1 ++ (pr kv.2 ++ (',' :: (printMembers pr (m :: t') ++ rbrace :: rest))) := by
      simp [printMembers]
    have hs : parseString (keyText kv.1 ++
          (pr kv.2 ++ (',' :: (printMembers pr (m :: t') ++ rbrace :: rest)))) =
        some (kv.1, ':' :: (pr kv.2 ++ (',' :: (printMembers pr (m :: t') ++ rbrace :: rest)))) := by
      have h : keyText kv.1 ++
            (pr kv.2 ++ (',' :: (printMembers pr (m :: t') ++ rbrace :: rest))) =
          jsonQuote kv.1 ++
            (':' :: (pr kv.2 ++ (',' :: (printMembers pr (m :: t') ++ rbrace :: rest)))) := by
        simp [keyText]
      rw [h, parseString_jsonQuote]
    have he : expect [':']
          (':' :: (pr kv.2 ++ (',' :: (printMembers pr (m :: t') ++ rbrace :: rest)))) =
        some (pr kv.2 ++ (',' :: (printMembers pr (m :: t') ++ rbrace :: rest))) :=
      expect_append [':'] _
    have hv := hlaw kv (List.mem_cons_self kv _)
      (',' :: (printMembers pr (m :: t') ++ rbrace :: rest))
      (delimited_cons ',' _ (by decide))
    rw [htail]
    simp only [parseMembers, hs, he, hv, if_true, hrec]

theorem Obj.set_of_not_mem {α : Type} (o : Obj α) (k : String) (v : α)
    (h : k ∉ Obj.keys o) : Obj.set o k v = o ++ [(k, v)] := by
  induction o with
  | nil => rfl
  | cons p t ih =>
    obtain ⟨k', v'⟩ := p
    have hne : k' ≠ k := by
      intro hk
      apply h
      simp [Obj.keys, hk]
    have ht : k ∉ Obj.keys t := by
      intro hk
      apply h
      simp only [Obj.keys, List.map_cons, List.mem_cons] at hk ⊢
      exact Or.inr hk
    simp [Obj.set, hne, ih ht]

theorem Obj.foldl_set_append {α : Type} (ms acc : Obj α)
    (hnodup : (Obj.keys (acc ++ ms)).Nodup) :
    ms.foldl (fun a kv => Obj.set a kv.1 kv.2) acc = acc ++ ms := by
  induction ms generalizing acc with
  | nil => simp
  | cons kv t ih =>
    have hk : kv.1 ∉ Obj.keys acc := by
      simp only [Obj.keys, List.map_append, List.map_cons] at hnodup
      have := (List.nodup_append.mp hnodup).2.2
      intro hmem
      exact this hmem (List.mem_cons_self _ _) 
    have hstep : Obj.set acc kv.1 kv.2 = acc ++ [kv] := Obj.set_of_not_mem acc kv.1 kv.2 hk
    rw [List.foldl_cons, hstep, ih (acc ++ [kv]) (by simpa using hnodup)]
    simp

/-- Reading back an object used as a dictionary. -/
theorem parseObject_printObject {α : Type} (pr : α → List Char) (pv : Parser α)
    (o : Obj α) (rest : List Char) (hnodup : (Obj.keys o).Nodup)
    (hlaw : ∀ p ∈ o, ∀ r, Delimited r → pv (pr p.2 ++ r) = some (p.2, r)) :
    parseObject pv (printObject pr o ++ rest) = some (o, rest) := by
  have h1 : printObject pr o ++ rest = [lbrace] ++ (printMembers pr o ++ rbrace :: rest) := by
    simp [printObject]
  rw [h1]
  unfold parseObject
  rw [expect_append]
  cases o with
  | nil =>
    have he : expect [rbrace] (printMembers pr ([] : List (String × α)) ++ rbrace :: rest) =
        some rest := expect_append [rbrace] rest
    simp only [he]
  | cons kv t =>
    have hhead : ∃ tl, printMembers pr (kv :: t) ++ rbrace :: rest = dquote :: tl := by
      cases t with
      | nil =>
        obtain ⟨tl, h⟩ := keyText_cons kv.1 (pr kv.2 ++ rbrace :: rest)
        exact ⟨tl, by simpa [printMembers] using h⟩
      | cons m t' =>
        obtain ⟨tl, h⟩ := keyText_cons kv.1
          (pr kv.2 ++ [','] ++ printMembers pr (m :: t') ++ rbrace :: rest)
        exact ⟨tl, by simpa [printMembers] using h⟩
    obtain ⟨tl, htl⟩ := hhead
    have he : expect [rbrace] (printMembers pr (kv :: t) ++ rbrace :: rest) = none := by
      rw [htl]
      exact expect_singleton_ne rbrace dquote tl (by decide)
    have hlen : (kv :: t).length ≤ (printMembers pr (kv :: t) ++ rbrace :: rest).length := by
      have := length_le_printMembers pr (kv :: t)
      simp only [List.length_append] at this ⊢
      omega
    have hp := parseMembers_printMembers pr pv kv t rest _ hlaw hlen
    have hfold := Obj.foldl_set_append (kv :: t) [] (by simpa using hnodup)
    simp only [he, hp, hfold, List.nil_append]

theorem length_le_printElems {α : Type} (pr : α → List Char) (l : List α)
    (hne : ∀ v ∈ l, pr v ≠ []) : l.length ≤ (printElems pr l).length := by
  induction l with
  | nil => simp
  | cons v t ih =>
    have hv : 1 ≤ (pr v).length := by
      have := hne v (List.mem_cons_self v t)
      cases h : pr v with
      | nil => exact absurd h this
      | cons c r => simp
    cases t with
    | nil =>
      simp only [printElems, List.length_cons, List.length_nil]
      omega
    | cons m t' =>
      have ih' := ih (fun x hx => hne x (List.mem_cons_of_mem v hx))
      simp only [printElems, List.length_append, List.length_cons, List.length_nil] at ih' ⊢
      omega

/-- Reading back the elements of a non-empty array. -/
theorem parseElems_printElems {α : Type} (pr : α → List Char) (pv : Parser α)
    (v : α) (t : List α) (rest : List Char) (fuel : Nat)
    (hlaw : ∀ x ∈ v :: t, ∀ r, Delimited r → pv (pr x ++ r) = some (x, r))
    (hfuel : (v :: t).length ≤ fuel) :
    parseElems pv fuel (printElems pr (v :: t) ++ ']' :: rest) = some (v :: t, rest) := by
  induction t generalizing v fuel with
  | nil =>
    obtain ⟨k, rfl⟩ : ∃ k, fuel = k + 1 := ⟨fuel - 1, by simp at hfuel; omega⟩
    have hv := hlaw v (List.mem_cons_self v []) (']' :: rest)
      (delimited_cons ']' rest (by decide))
    have hc : (']' : Char) ≠ ',' := by decide
    simp only [printElems, parseElems, hv, hc, if_false, if_true]
  | cons m t' ih =>
    obtain ⟨k, rfl⟩ : ∃ k, fuel = k + 1 := ⟨fuel - 1, by simp at hfuel; omega⟩
    have hrec := ih m k (fun x hx r hr => hlaw x (List.mem_cons_of_mem v hx) r hr)
      (by simp at hfuel ⊢; omega)
    have htail : printElems pr (v :: m :: t') ++ ']' :: rest =
        pr v ++ (',' :: (printElems pr (m :: t') ++ ']' :: rest)) := by
      simp [printElems]
    have hv := hlaw v (List.mem_cons_self v _)
      (',' :: (printElems pr (m :: t') ++ ']' :: rest)) (delimited_cons ',' _ (by decide))
    rw [htail]
    simp only [parseElems, hv, if_true, hrec]

/-- Reading back an array whose elements are written starting with a brace. -/
theorem parseArray_printArray {α : Type} (pr : α → List Char) (pv : Parser α)
    (l : List α) (rest : List Char)
    (hhead : ∀ x ∈ l, ∃ tl, pr x = lbrace :: tl)
    (hlaw : ∀ x ∈ l, ∀ r, Delimited r → pv (pr x ++ r) = some (x, r)) :
    parseArray pv (printArray pr l ++ rest) = some (l, rest) := by
  have h1 : printArray pr l ++ rest = ['['] ++ (printElems pr l ++ ']' :: rest) := by
    simp [printArray]
  rw [h1]
  unfold parseArray
  rw [expect_append]
  cases l with
  | nil =>
    have he : expect [']'] (printElems pr ([] : List α) ++ ']' :: rest) = some rest :=
      expect_append [']'] rest
    simp only [he]
  | cons v t =>
    obtain ⟨tl, htl⟩ := hhead v (List.mem_cons_self v t)
    have hstart : ∃ tl', printElems pr (v :: t) ++ ']' :: rest = lbrace :: tl' := by
      cases t with
      | nil => exact ⟨tl ++ ']' :: rest, by simp [printElems, htl]⟩
      | cons m t' =>
        exact ⟨tl ++ [','] ++ printElems pr (m :: t') ++ ']' :: rest, by
          simp [printElems, htl]⟩
    obtain ⟨tl', htl'⟩ := hstart
    have he : expect [']'] (printElems pr (v :: t) ++ ']' :: rest) = none := by
      rw [htl']
      exact expect_singleton_ne ']' lbrace tl' (by decide)
    have hne : ∀ x ∈ v :: t, pr x ≠ [] := by
      intro x hx h
      obtain ⟨tlx, hx'⟩ := hhead x hx
      rw [h] at hx'
      cases hx'
    have hlen : (v :: t).length ≤ (printElems pr (v :: t) ++ ']' :: rest).length := by
      have := length_le_printElems pr (v :: t) hne
      simp only [List.length_append] at this ⊢
      omega
    have hp := parseElems_printElems pr pv v t rest _ hlaw hlen
    simp only [he, hp]

/-- Reading back a habit. -/
theorem parseHabit_printHabit (h : Habit) (rest : List Char) :
    parseHabit (printHabit h ++ rest) = some (h, rest) := by
  have ht : printHabit h ++ rest =
      ([lbrace] ++ keyText "id") ++ (jsonQuote h.id ++ (([','] ++ keyText "name") ++
        (jsonQuote h.name ++ (([','] ++ keyText "color") ++
          (jsonQuote h.color ++ ([rbrace] ++ rest)))))) := by
    simp [printHabit]
  rw [ht]
  simp only [parseHabit, expect_append, parseString_jsonQuote, Option.some_bind]

/-- Reading back an entry whose `completed` has distinct keys. -/
theorem parseEntry_printEntry (e : Entry) (rest : List Char)
    (hnodup : (Obj.keys e.completed).Nodup) :
    parseEntry (printEntry e ++ rest) = some (e, rest) := by
  have ht : printEntry e ++ rest =
      ([lbrace] ++ keyText "notes") ++ (jsonQuote e.notes ++ (([','] ++ keyText "completed") ++
        (printObject boolText e.completed ++ ([rbrace] ++ rest)))) := by
    simp [printEntry]
  have ho := parseObject_printObject boolText parseBool e.completed ([rbrace] ++ rest) hnodup
    (fun p _ r _ => parseBool_boolText p.2 r)
  rw [ht]
  simp only [parseEntry, expect_append, parseString_jsonQuote, Option.some_bind, ho]

/-- Reading back a goal whose target is an integer that a double holds. -/
theorem parseGoal_printGoal (g : Goal) (rest : List Char)
    (ht : natToDouble g.target.natAbs = some g.target.natAbs) :
    parseGoal (printGoal g ++ rest) = some (g, rest) := by
  have htext : printGoal g ++ rest =
      ([lbrace] ++ keyText "id") ++ (jsonQuote g.id ++ (([','] ++ keyText "title") ++
        (jsonQuote g.title ++ (([','] ++ keyText "target") ++
          (intText g.target ++ ([rbrace] ++ rest)))))) := by
    simp [printGoal]
  have hi := parseIntJson_intText g.target ([rbrace] ++ rest)
    (delimited_cons rbrace rest (by decide)) ht
  rw [htext]
  simp only [parseGoal, expect_append, parseString_jsonQuote, Option.some_bind, hi]

/-- Reading back a well-formed document. -/
theorem parseDocument_printDocument (d : Document) (rest : List Char)
    (hwf : d.WellFormed) :
    parseDocument (printDocument d ++ rest) = some (d, rest) := by
  obtain ⟨hh, he, hg, hc, ht⟩ := hwf
  have htext : printDocument d ++ rest =
      ([lbrace] ++ keyText "habits") ++ (printObject printHabit d.habits ++
        (([','] ++ keyText "entries") ++ (printObject printEntry d.entries ++
          (([','] ++ keyText "goals") ++
            (printObject (printArray printGoal) d.goals ++ ([rbrace] ++ rest)))))) := by
    simp [printDocument]
  have h1 := parseObject_printObject printHabit parseHabit d.habits
    (([','] ++ keyText "entries") ++ (printObject printEntry d.entries ++
      (([','] ++ keyText "goals") ++
        (printObject (printArray printGoal) d.goals ++ ([rbrace] ++ rest))))) hh
    (fun p _ r _ => parseHabit_printHabit p.2 r)
  have h2 := parseObject_printObject printEntry parseEntry d.entries
    (([','] ++ keyText "goals") ++
      (printObject (printArray printGoal) d.goals ++ ([rbrace] ++ rest))) he
    (fun p hp r _ => parseEntry_printEntry p.2 r (hc p hp))
  have h3 := parseObject_printObject (printArray printGoal) (parseArray parseGoal) d.goals
    ([rbrace] ++ rest) hg
    (fun p hp r _ => parseArray_printArray printGoal parseGoal p.2 r
      (fun x _ => ⟨_, by simp [printGoal]; rfl⟩)
      (fun x hx r' _ => parseGoal_printGoal x r' (ht p hp x hx).1))
  rw [htext]
  simp only [parseDocument, expect_append, Option.some_bind, h1, h2, h3]

/-- The round trip of the JSON text: parsing what `jsonStringify` wrote for a
well-formed document gives the document back. -/
theorem jsonParse_jsonStringify (d : Document) (hwf : d.WellFormed) :
    jsonParse (jsonStringify d) = some d := by
  have h := parseDocument_printDocument d [] hwf
  simp only [List.append_nil] at h
  have hl : (String.mk (printDocument d)).toList = printDocument d := rfl
  simp only [jsonParse, jsonStringify, hl, h]

theorem jsonStringify_ne_empty (d : Document) : jsonStringify d ≠ "" := by
  intro h
  have hlen := congrArg String.length h
  simp [jsonStringify, printDocument] at hlen

/-- The guard of `saveData` (line 64): with the empty username nothing is
written, and a later `loadData` finds no record. -/
theorem saveData_empty_username :
    saveData tallyStringify (stateOf "" docRun) [] = [] ∧
    loadData tallyParse (saveData tallyStringify (stateOf "" docRun) []) "" = emptyDocument := by
  refine ⟨by decide, by decide⟩

/-- Load after save for any encoder and parser such that parsing the encoding
of the saved document gives it back and the encoding is not the empty text. -/
theorem loadData_saveData_of_codec (stringify : Document → String)
    (parse : String → Option Document) (u : String) (hu : u ≠ "") (D : Document) (s : State)
    (hs : s.username = some u) (hd : s.data = some D) (storage : Storage)
    (hparse : parse (stringify D) = some D) (hne : stringify D ≠ "") :
    Obj.get (saveData stringify s storage) ("healthtracker:" ++ u) = some (stringify D) ∧
    loadData parse (saveData stringify s storage) u = D := by
  have hsave : saveData stringify s storage = Obj.set storage (storageKey u) (stringify D) := by
    simp [saveData, hs, hd, hu]
  have hget : Obj.get (saveData stringify s storage) (storageKey u) = some (stringify D) := by
    rw [hsave, Obj.get_set_self]
  refine ⟨hget, ?_⟩
  unfold loadData
  rw [hget]
  simp [hne, hparse]

/-- Claim C7: with a username loaded (never empty: `setUser` is reached only
after the checks of lines 408 and 415) and a document `D` active, `saveData`
writes the JSON text of the whole document under the key
`healthtracker:{username}`, and `loadData` of that username right after it reads
that key and decodes the text back to `D`, not to the empty default.  `D` is
any well-formed document: distinct keys in each object, integer targets that a
double holds and that are written in plain decimal. -/
theorem loadData_saveData (u : String) (hu : u ≠ "") (D : Document) (s : State)
    (hs : s.username = some u) (hd : s.data = some D) (hwf : D.WellFormed)
    (storage : Storage) :
    Obj.get (saveData jsonStringify s storage) ("healthtracker:" ++ u) =
      some (jsonStringify D) ∧
    loadData jsonParse (saveData jsonStringify s storage) u = D :=
  loadData_saveData_of_codec jsonStringify jsonParse u hu D s hs hd storage
    (jsonParse_jsonStringify D hwf) (jsonStringify_ne_empty D)

theorem docLocal_wellFormed : docLocal.WellFormed := by
  refine ⟨by decide, by decide, by decide, by decide, ?_⟩
  intro p hp g hg
  simp only [docLocal, List.mem_singleton] at hp
  subst hp
  simp only [List.mem_singleton] at hg
  subst hg
  exact ⟨natToDouble_small 8 (by norm_num), by norm_num⟩

theorem loadData_saveData_witness :
    Obj.get (saveData jsonStringify (stateOf "ann" docLocal) []) "healthtracker:ann" =
      some (jsonStringify docLocal) ∧
    loadData jsonParse (saveData jsonStringify (stateOf "ann" docLocal) []) "ann" = docLocal :=
  loadData_saveData "ann" (by decide) docLocal (stateOf "ann" docLocal) rfl rfl
    docLocal_wellFormed []

/-! ## Import and export -/

theorem Obj.get_spread_step {α : Type} (b acc : Obj α) (k0 k : String) :
    Obj.get (match Obj.get b k0 with
      | some v => Obj.set acc k0 v
      | none => acc) k =
    if k0 = k then (match Obj.get b k with
      | some v => some v
      | none => Obj.get acc k) else Obj.get acc k := by
  by_cases h : k0 = k
  · subst h
    cases hb : Obj.get b k0 with
    | none => simp
    | some v => simp [Obj.get_set_self]
  · cases hb : Obj.get b k0 with
    | none => simp [h]
    | some v => simp [h, Obj.get_set_ne acc k0 k v (Ne.symm h)]

theorem Obj.get_foldl_spread {α : Type} (b : Obj α) (ks : List String) (acc : Obj α)
    (k : String) :
    Obj.get (ks.foldl (fun acc k0 =>
      match Obj.get b k0 with
      | some v => Obj.set acc k0 v
      | none => acc) acc) k =
    if k ∈ ks then (match Obj.get b k with
      | some v => some v
      | none => Obj.get acc k) else Obj.get acc k := by
  induction ks generalizing acc with
  | nil => simp
  | cons k0 t ih =>
    rw [List.foldl_cons, ih, Obj.get_spread_step]
    by_cases h0 : k0 = k
    · subst h0
      cases hb : Obj.get b k0 <;> simp
    · by_cases ht : k ∈ t
      · simp [h0, ht]
      · simp [h0, ht, Ne.symm h0]

theorem Obj.get_spread {α : Type} (a b : Obj α) (k : String) :
    Obj.get (Obj.spread a b) k =
      match Obj.get b k with
      | some v => some v
      | none => Obj.get a k := by
  unfold Obj.spread
  rw [Obj.get_foldl_spread]
  by_cases h : k ∈ Obj.keys b
  · simp [h]
  · have hn : Obj.get b k = none := (Obj.get_eq_none_iff b k).mpr h
    simp [h, hn]

theorem Obj.mergedFrom_spread {α : Type} (L I : Obj α) : MergedFrom L I (Obj.spread L I) := by
  intro k
  refine ⟨?_, ?_, ?_⟩
  · simp only [Obj.mem_keys_iff, Obj.get_spread]
    cases hI : Obj.get I k with
    | none => simp
    | some v => simp
  · intro r hr
    rw [Obj.get_spread, hr]
  · intro hk
    have hn : Obj.get I k = none := (Obj.get_eq_none_iff I k).mpr hk
    rw [Obj.get_spread, hn]

/-- Claim C5: importing a valid payload with data `I` in merge mode into a
current document `L` gives, for each of `habits`, `entries` and `goals`, the
key-by-key union in which every key of `I` carries exactly the record of `I`
and every key of `L` alone keeps the record of `L`. -/
theorem importPayload_merge (stringify : Document → String) (p : Payload) (u : String)
    (I L : Document) (w : World) (hu : p.username = some u) (hne : u ≠ "")
    (hI : p.data = some I) (hL : w.state.data = some L) :
    ∃ M, (importPayload stringify p true w).world.state.data = some M ∧
      MergedFrom L.habits I.habits M.habits ∧
      MergedFrom L.entries I.entries M.entries ∧
      MergedFrom L.goals I.goals M.goals := by
  have hvalid : payloadInvalid p = false := by
    simp [payloadInvalid, hu, hI, hne]
  refine ⟨{ habits := Obj.spread L.habits I.habits
            entries := Obj.spread L.entries I.entries
            goals := Obj.spread L.goals I.goals }, ?_, Obj.mergedFrom_spread _ _,
    Obj.mergedFrom_spread _ _, Obj.mergedFrom_spread _ _⟩
  simp [importPayload, hvalid, hI, hL]

theorem importPayload_merge_witness :
    ∃ M, (importPayload tallyStringify { username := some "ann", data := some docIncoming }
        true (worldOf "bob" docLocal)).world.state.data = some M ∧
      Obj.get M.entries "2025-06-01" = some { notes := "B", completed := [] } ∧
      Obj.get M.entries "2025-06-02" = some { notes := "rest", completed := [] } := by
  obtain ⟨M, hM, _, hentries, _⟩ :=
    importPayload_merge tallyStringify { username := some "ann", data := some docIncoming }
      "ann" docIncoming docLocal (worldOf "bob" docLocal) rfl (by decide) rfl rfl
  refine ⟨M, hM, (hentries "2025-06-01").2.1 _ (by decide), ?_⟩
  rw [(hentries "2025-06-02").2.2 (by decide)]
  decide

/-- Claim C6: with a non-empty username `u` loaded and document `D`, export
builds a payload, and importing that payload in replace mode leaves `D` as the
current document, whatever the importing session held before. -/
theorem importPayload_replace_exportPayload (stringify : Document → String) (u : String)
    (D : Document) (s : State) (w : World) (hu : u ≠ "") (hs : s.username = some u)
    (hd : s.data = some D) :
    ∃ p, exportPayload s = some p ∧
      (importPayload stringify p false w).world.state.data = some D ∧
      (importPayload stringify p false w).flash = "Import complete" := by
  refine ⟨{ username := some u, data := some D }, ?_, ?_, ?_⟩
  · simp [exportPayload, hs, hd, hu]
  · simp [importPayload, payloadInvalid, hu]
  · simp [importPayload, payloadInvalid, hu]

theorem importPayload_replace_exportPayload_witness :
    ∃ p, exportPayload (stateOf "ann" docLocal) = some p ∧
      (importPayload tallyStringify p false (worldOf "bob" docIncoming)).world.state.data =
        some docLocal ∧
      (importPayload tallyStringify p false (worldOf "bob" docIncoming)).flash =
        "Import complete" :=
  importPayload_replace_exportPayload tallyStringify "ann" docLocal (stateOf "ann" docLocal)
    (worldOf "bob" docIncoming) (by decide) rfl rfl

/-- Claim C4 as stated fails: a payload whose `username` is present but is the
empty string, with `data` present, is rejected by the check, before the mode is
asked and with the world unchanged. -/
theorem importPayload_rejects_empty_username :
    ({ username := some "", data := some docIncoming } : Payload).username.isSome = true ∧
    ({ username := some "", data := some docIncoming } : Payload).data.isSome = true ∧
    payloadInvalid { username := some "", data := some docIncoming } = true ∧
    importPayload tallyStringify { username := some "", data := some docIncoming } true
        (worldOf "bob" docLocal) =
      { world := worldOf "bob" docLocal, flash := "Invalid file format", askedMode := false } := by
  refine ⟨rfl, rfl, by decide, ?_⟩
  simp [importPayload, payloadInvalid]

/-- Claim C4, amended: the check rejects exactly the payloads whose `username`
is missing or empty or whose `data` is missing; a rejected payload leaves the
whole world (document, state and storage) as it was, whatever the mode would
have been, and the mode is not asked; a payload with a non-empty `username`
and `data` present passes the check and the mode is asked. -/
theorem importPayload_validation (stringify : Document → String) (p : Payload)
    (mergeChosen : Bool) (w : World) :
    (payloadInvalid p = true ↔ (p.username = none ∨ p.username = some "" ∨ p.data = none)) ∧
    (payloadInvalid p = true →
      importPayload stringify p mergeChosen w =
        { world := w, flash := "Invalid file format", askedMode := false }) ∧
    (payloadInvalid p = false →
      (importPayload stringify p mergeChosen w).askedMode = true ∧
      (importPayload stringify p mergeChosen w).flash ≠ "Invalid file format") := by
  refine ⟨?_, ?_, ?_⟩
  · obtain ⟨username, data⟩ := p
    cases username <;> cases data <;> simp [payloadInvalid]
  · intro h
    simp [importPayload, h]
  · intro h
    obtain ⟨username, data⟩ := p
    cases data with
    | none => cases username <;> simp [payloadInvalid] at h
    | some incoming =>
      cases mergeChosen
      · simp [importPayload, h]
      · cases hd : w.state.data <;> simp [importPayload, h, hd]

theorem importPayload_validation_witness :
    importPayload tallyStringify { username := none, data := some docIncoming } true
        (worldOf "bob" docLocal) =
      { world := worldOf "bob" docLocal, flash := "Invalid file format", askedMode := false } ∧
    (importPayload tallyStringify { username := some "ann", data := some docIncoming } true
        (worldOf "bob" docLocal)).askedMode = true :=
  ⟨(importPayload_validation tallyStringify { username := none, data := some docIncoming }
      true (worldOf "bob" docLocal)).2.1 (by decide),
    ((importPayload_validation tallyStringify
      { username := some "ann", data := some docIncoming } true
      (worldOf "bob" docLocal)).2.2 (by decide)).1⟩

/-! ## Adding a goal -/

/-- Claim C3 as stated fails: with title "Run" and target "-5" the handler does
not reject; it appends a goal with target `-5` to the viewed month's list. -/
theorem addGoalClick_accepts_negative_target :
    parseInt10 "-5" = ParsedInt.finite (-5) ∧
    ∃ w', addGoalClick tallyStringify "g2" "Run" "-5" (worldOf "bob" docRun) =
        AddGoalOutcome.appended w' ∧
      w'.state.data = some { docRun with
        goals := [("2025-06", [{ id := "g2", title := "Run", target := -5 }])] } := by
  refine ⟨parseInt10_neg_five, ?_⟩
  have htitle : jsTrim "Run" = "Run" := by decide
  simp only [addGoalClick, parseInt10_neg_five, htitle]
  exact ⟨_, rfl, by decide⟩

/-- Claim C3, amended: the handler rejects, leaving the whole world unchanged,
exactly when the trimmed title is empty or the parsed target is zero or not a
number; otherwise, for a parsed target that is any non-zero integer (positive
or negative), it appends the new goal, whose target is the parsed number as
`parseInt` returns it (a double), to the list of the viewed month and leaves
habits, entries and the other months' goals as they were. -/
theorem addGoalClick_spec (stringify : Document → String)
    (newId titleInput targetInput : String) (w : World) :
    ((jsTrim titleInput = "" ∨ parseInt10 targetInput = ParsedInt.nan ∨
        parseInt10 targetInput = ParsedInt.finite 0) ↔
      addGoalClick stringify newId titleInput targetInput w =
        AddGoalOutcome.rejected w "Provide goal title and numeric target") ∧
    (∀ (t : Int) (d : Document), jsTrim titleInput ≠ "" →
      parseInt10 targetInput = ParsedInt.finite t → t ≠ 0 → w.state.data = some d →
      ∃ w' d', addGoalClick stringify newId titleInput targetInput w =
          AddGoalOutcome.appended w' ∧
        w'.state.data = some d' ∧
        d'.habits = d.habits ∧ d'.entries = d.entries ∧
        Obj.get d'.goals (monthKey w.state.viewYear w.state.viewMonth) =
          some ((Obj.get d.goals (monthKey w.state.viewYear w.state.viewMonth)).getD [] ++
            [{ id := newId, title := jsTrim titleInput, target := t }]) ∧
        ∀ k, k ≠ monthKey w.state.viewYear w.state.viewMonth →
          Obj.get d'.goals k = Obj.get d.goals k) := by
  constructor
  · constructor
    · intro h
      simp only [addGoalClick]
      rw [if_pos h]
    · intro h
      by_contra hcond
      simp only [addGoalClick] at h
      rw [if_neg hcond] at h
      cases hd : w.state.data with
      | none => simp [hd] at h
      | some d =>
        cases ht : parseInt10 targetInput with
        | nan => exact hcond (Or.inr (Or.inl ht))
        | infinite negative => simp [hd, ht] at h
        | finite t => simp [hd, ht] at h
  · intro t d htitle htarget ht hd
    have hcond : ¬ (jsTrim titleInput = "" ∨ parseInt10 targetInput = ParsedInt.nan ∨
        parseInt10 targetInput = ParsedInt.finite 0) := by
      rw [htarget]
      simp [htitle, ht]
    simp only [addGoalClick]
    rw [if_neg hcond]
    simp only [hd, htarget]
    refine ⟨_, _, rfl, rfl, rfl, rfl, ?_, ?_⟩
    · simp only [Obj.get_set_self, Option.getD_some]
    · intro k hk
      simp only
      rw [Obj.get_set_ne _ _ _ _ hk, Obj.get_set_ne _ _ _ _ hk]

theorem addGoalClick_spec_witness :
    addGoalClick tallyStringify "g2" "Run" "abc" (worldOf "bob" docRun) =
      AddGoalOutcome.rejected (worldOf "bob" docRun) "Provide goal title and numeric target" ∧
    ∃ w' d', addGoalClick tallyStringify "g2" " Run " "3" (worldOf "bob" docLocal) =
        AddGoalOutcome.appended w' ∧
      w'.state.data = some d' ∧
      Obj.get d'.goals "2025-06" =
        some [{ id := "g1", title := "Move", target := 8 },
          { id := "g2", title := "Run", target := 3 }] := by
  refine ⟨(addGoalClick_spec tallyStringify "g2" "Run" "abc" (worldOf "bob" docRun)).1.mp
    (Or.inr (Or.inl parseInt10_abc)), ?_⟩
  obtain ⟨w', d', h0, h1, _, _, h2, _⟩ :=
    (addGoalClick_spec tallyStringify "g2" " Run " "3" (worldOf "bob" docLocal)).2 3 docLocal
      (by decide) parseInt10_three (by decide) rfl
  exact ⟨w', d', h0, h1, h2⟩

/-! ## Reaching the target -/

theorem fl64_one : fl64 1 = 1 := by
  have h := fl64_intCast 1 (by norm_num)
  push_cast at h
  exact h

theorem fl64_hundred : fl64 100 = 100 := by
  have h := fl64_intCast 100 (by norm_num)
  push_cast at h
  exact h

/-- The quotient `31/32` is a double. -/
theorem fl64_31_32 : fl64 (31 / 32) = 31 / 32 := by
  apply fl64_eq_self_of_binade (-1) (31 * 2 ^ 48) (by norm_num)
  · rw [abs_of_pos (by norm_num)]
    norm_num
  · rw [abs_of_pos (by norm_num)]
    norm_num
  · norm_num

/-- The product `96.875` is a double. -/
theorem fl64_775_8 : fl64 (775 / 8) = 775 / 8 := by
  apply fl64_eq_self_of_binade 6 (775 * 2 ^ 43) (by norm_num)
  · rw [abs_of_pos (by norm_num)]
    norm_num
  · rw [abs_of_pos (by norm_num)]
    norm_num
  · norm_num

/-- With at most 31 completions and fewer than the positive divisor, the rounded
percent is at most 97. -/
theorem percent_le_97 (c : Nat) (t : Int) (hc : c ≤ 31) (hlt : (c : Int) < t) :
    jsRound (fl64 (fl64 ((c : ℚ) / (t : ℚ)) * 100)) ≤ 97 := by
  have htpos : (0 : ℚ) < (t : ℚ) := by
    have : (0 : Int) < t := by omega
    exact_mod_cast this
  have hlin : 32 * (c : Int) ≤ 31 * t := by omega
  have hq : (c : ℚ) / (t : ℚ) ≤ 31 / 32 := by
    rw [div_le_iff₀ htpos]
    have : ((32 * (c : Int) : Int) : ℚ) ≤ ((31 * t : Int) : ℚ) := by exact_mod_cast hlin
    push_cast at this
    linarith
  have h0 : (0 : ℚ) ≤ (c : ℚ) / (t : ℚ) := div_nonneg (Nat.cast_nonneg _) htpos.le
  have h1 : fl64 ((c : ℚ) / (t : ℚ)) ≤ 31 / 32 := by
    have hmono := fl64_mono_nonneg h0 hq
    rw [fl64_31_32] at hmono
    exact hmono
  have h2 : fl64 (fl64 ((c : ℚ) / (t : ℚ)) * 100) ≤ 775 / 8 := by
    have hmono : fl64 (fl64 ((c : ℚ) / (t : ℚ)) * 100) ≤ fl64 (775 / 8) :=
      fl64_mono_nonneg (mul_nonneg (fl64_nonneg h0) (by norm_num)) (by linarith)
    rw [fl64_775_8] at hmono
    exact hmono
  calc jsRound (fl64 (fl64 ((c : ℚ) / (t : ℚ)) * 100)) ≤ jsRound (775 / 8) := jsRound_mono h2
    _ = 97 := by
      unfold jsRound
      rw [Int.floor_eq_iff]
      constructor <;> norm_num

/-- With at least as many completions as the positive divisor, the rounded
percent is at least 100. -/
theorem percent_ge_100 (c : Nat) (t : Int) (ht : 0 < t) (hge : t ≤ (c : Int)) :
    100 ≤ jsRound (fl64 (fl64 ((c : ℚ) / (t : ℚ)) * 100)) := by
  have htpos : (0 : ℚ) < (t : ℚ) := by exact_mod_cast ht
  have hq : (1 : ℚ) ≤ (c : ℚ) / (t : ℚ) := by
    rw [le_div_iff₀ htpos, one_mul]
    exact_mod_cast hge
  have h1 : 1 ≤ fl64 ((c : ℚ) / (t : ℚ)) := by
    have hmono := fl64_mono_nonneg (by norm_num) hq
    rw [fl64_one] at hmono
    exact hmono
  have h2 : 100 ≤ fl64 (fl64 ((c : ℚ) / (t : ℚ)) * 100) := by
    have hmono : fl64 100 ≤ fl64 (fl64 ((c : ℚ) / (t : ℚ)) * 100) :=
      fl64_mono_nonneg (by norm_num) (by linarith)
    rw [fl64_hundred] at hmono
    exact hmono
  calc (100 : Int) = jsRound ((100 : Int) : ℚ) := (jsRound_intCast 100).symm
    _ ≤ jsRound (fl64 (fl64 ((c : ℚ) / (t : ℚ)) * 100)) :=
      jsRound_mono (by push_cast; exact h2)

/-- Claim C11: for a goal with a positive target, the code returns 100, and
goes on to signal that the target is reached, exactly when the month has at
least `target` completion days; with fewer it stays below 100 (a month has at
most 31 days, so rounding cannot reach it), and the result is always between 0
and 100. -/
theorem computeGoalProgressPct_eq_100_iff (d : Document) (goal : Goal) (year : Int)
    (month : Nat) (ht : 0 < goal.target) :
    (computeGoalProgressPct d goal year month = 100 ↔
      goal.target ≤ (specCompletions d year month : Int)) ∧
    (signalsTargetReached d goal year month = true ↔
      goal.target ≤ (specCompletions d year month : Int)) ∧
    0 ≤ computeGoalProgressPct d goal year month ∧
    computeGoalProgressPct d goal year month ≤ 100 := by
  have hT : targetOrOne goal.target = goal.target := by
    unfold targetOrOne
    rw [if_neg (by omega)]
  have hval : computeGoalProgressPct d goal year month =
      min 100 (jsRound (fl64 (fl64 ((countCompletions d year month : ℚ) /
        (goal.target : ℚ)) * 100))) := by
    simp only [computeGoalProgressPct, hT]
  have hc := countCompletions_le d year month
  have htq : (0 : ℚ) < (goal.target : ℚ) := by exact_mod_cast ht
  have hnonneg : 0 ≤ jsRound (fl64 (fl64 ((countCompletions d year month : ℚ) /
      (goal.target : ℚ)) * 100)) := by
    have h0 : (0 : ℚ) ≤ fl64 (fl64 ((countCompletions d year month : ℚ) /
        (goal.target : ℚ)) * 100) :=
      fl64_nonneg (mul_nonneg (fl64_nonneg (div_nonneg (Nat.cast_nonneg _) htq.le))
        (by norm_num))
    calc (0 : Int) = jsRound ((0 : Int) : ℚ) := (jsRound_intCast 0).symm
      _ ≤ _ := jsRound_mono (by push_cast; exact h0)
  have hiff : computeGoalProgressPct d goal year month = 100 ↔
      goal.target ≤ (specCompletions d year month : Int) := by
    rw [hval, ← countCompletions_eq_spec]
    constructor
    · intro h
      by_contra hlt
      have h97 := percent_le_97 (countCompletions d year month) goal.target hc (by omega)
      omega
    · intro hge
      have h100 := percent_ge_100 (countCompletions d year month) goal.target ht hge
      omega
  refine ⟨hiff, ?_, ?_, ?_⟩
  · rw [← hiff]
    unfold signalsTargetReached
    rw [decide_eq_true_iff, hval]
    omega
  · rw [hval]
    omega
  · rw [hval]
    omega

theorem computeGoalProgressPct_eq_100_iff_witness :
    computeGoalProgressPct docRunTicked { id := "g", title := "Run once", target := 1 } 2025 5
        = 100 ∧
    signalsTargetReached docRunTicked { id := "g", title := "Run once", target := 1 } 2025 5
        = true :=
  ⟨(computeGoalProgressPct_eq_100_iff docRunTicked
      { id := "g", title := "Run once", target := 1 } 2025 5 (by decide)).1.mpr (by decide),
    (computeGoalProgressPct_eq_100_iff docRunTicked
      { id := "g", title := "Run once", target := 1 } 2025 5 (by decide)).2.1.mpr (by decide)⟩

end HabitTracker
